import Mathlib

/-!
Verification of the radicle-link replication core (`link-replication` crate).
Shallow embedding conventions:
* `Oid` (git object ids) are `Nat` — opaque, content addressed, totally ordered.
* `PeerId` is `Nat`; its stable text encoding is modelled as the character
  `z` followed by a unary run of `a`s (the spec only requires a stable,
  injective, separator-free text encoding for peer ids).
* Refnames are byte strings, modelled as `List Char`; the source splits
  refnames on `/` (`is_separator`), which we model by an explicit
  component splitter.
* Fallible operations return `Option` or `Except`; panics (`unreachable!`,
  `expect`) are modelled as distinguished error outcomes.
Definitions translated from the repository sources carry the source file in
their doc comment.  Components of the repository that are not part of the
source tree under inspection (the `refs` module root, `refdb.rs`,
`sigrefs.rs`, `ids.rs`, `validation.rs`, the `link-crypto` peer-id
encoding) are modelled from the specification and marked
`Modelled from the spec:` in their doc comments.
-/

namespace LinkRepl

/-- Object identifier: opaque content-addressed hash, modelled as `Nat`. -/

abbrev Oid := Nat

/-- Peer identifier: a public key; equality iff the keys are equal. -/

abbrev PeerId := Nat

/-- Urn: stable textual id (`encode_id`); the parser instantiates `Urn` with
`Identity`, a plain string wrapper whose `try_from_id` always succeeds, so we
model it as the raw component. -/

abbrev UrnT := List Char

/-- Modelled from the spec: the stable text encoding of a `PeerId`
(link-crypto is outside the inspected sources).  We use `z` followed by a
unary run of `a`s: injective, non-empty, separator-free, and distinct from
every reserved refname token. -/

def encodePeer (p : PeerId) : List Char :=
  'z' :: List.replicate p 'a'

/-- Modelled from the spec: parsing the text encoding of a `PeerId`;
succeeds exactly on well-formed encodings. -/

def decodePeer : List Char → Option PeerId
  | 'z' :: rest => if rest.all (· = 'a') then some rest.length else none
  | _ => none

/-! ### Splitting refnames on the separator
`refs/parsed.rs` parses a refname by `orig.split(is_separator)` where the
separator is `/`.  `splitSep` mirrors the semantics of Rust's `split` on a
byte string: the empty string yields one empty component, a trailing
separator yields a trailing empty component. -/

/-- Split a byte string on `/`, Rust `BStr::split(is_separator)` semantics. -/

def splitSep : List Char → List (List Char)
  | [] => [[]]
  | c :: cs =>
    match splitSep cs with
    | [] => [[]]
    | p :: ps => if c = '/' then [] :: p :: ps else (c :: p) :: ps

/-- Join components with the `/` separator (inverse of `splitSep` on
separator-free components). -/

def joinSep : List (List Char) → List Char
  | [] => []
  | [p] => p
  | p :: ps => p ++ '/' :: joinSep ps

/-! ### Refname tokens (`refs/lit::component` in the source) -/

def REFS : List Char := "refs".toList

def REMOTES : List Char := "remotes".toList

def RAD : List Char := "rad".toList

def ID : List Char := "id".toList

def SELF : List Char := "self".toList

def SIGNED_REFS : List Char := "signed_refs".toList

def IDS : List Char := "ids".toList

def HEADS : List Char := "heads".toList

def NOTES : List Char := "notes".toList

def TAGS : List Char := "tags".toList

def NAMESPACES : List Char := "namespaces".toList

/-! ### The parsed ref grammar (`link-replication/src/refs/parsed.rs`) -/

/-- `Rad` from `refs/parsed.rs`: the special verification refs. -/

inductive Rad where
  | id : Rad
  | me : Rad
  | signedRefs : Rad
  | ids (urn : UrnT) : Rad
deriving DecidableEq, Repr

/-- `Cat` from `refs/parsed.rs`: ref categories. -/

inductive Cat where
  | heads : Cat
  | notes : Cat
  | tags : Cat
  | unknown (tok : List Char) : Cat
deriving DecidableEq, Repr

/-- `Cat::as_bytes` / `AsRef<[u8]> for Cat` from `refs/parsed.rs`. -/

def Cat.asBytes : Cat → List Char
  | .heads => HEADS
  | .notes => NOTES
  | .tags => TAGS
  | .unknown x => x

/-- `Refs` from `refs/parsed.rs`: a categorised ref with a path tail. -/

structure RefsName where
  cat : Cat
  name : List (List Char)
deriving DecidableEq, Repr

/-- `Either<Rad, Refs>`, the `inner` field of `Parsed`. -/

inductive RadOrRefs where
  | rad (r : Rad) : RadOrRefs
  | refs (r : RefsName) : RadOrRefs
deriving DecidableEq, Repr

/-- `Parsed` from `refs/parsed.rs`. -/

structure Parsed where
  remote : Option PeerId
  inner : RadOrRefs
deriving DecidableEq, Repr

/-- `parse_prime` from `refs/parsed.rs` (on the already-split component
list; the `Urn` parameter is `Identity`, whose `try_from_id` always
succeeds, and the utf-8 check is vacuous on the char-level model). -/

def parsePrime (remote : Option PeerId) : List (List Char) → Option Parsed
  | [] => none
  | comp :: rest =>
    if comp = [] then none
    else if comp = RAD then
      match rest with
      | [] => none
      | c2 :: rest2 =>
        if c2 = ID then some ⟨remote, .rad .id⟩
        else if c2 = SELF then some ⟨remote, .rad .me⟩
        else if c2 = SIGNED_REFS then some ⟨remote, .rad .signedRefs⟩
        else if c2 = IDS then
          match rest2 with
          | [] => none
          | u :: _ => some ⟨remote, .rad (.ids u)⟩
        else none
    else
      if rest = [] then none
      else
        some ⟨remote, .refs ⟨if comp = HEADS then .heads
                             else if comp = NOTES then .notes
                             else if comp = TAGS then .tags
                             else .unknown comp, rest⟩⟩

/-- `parse` from `refs/parsed.rs`: split the refname on the separator,
require a leading `refs`, consume an optional `remotes/<peer>` prefix,
then classify. -/

def parse (orig : List Char) : Option Parsed :=
  match splitSep orig with
  | [] => none
  | c :: rest =>
    if c = REFS then
      match rest with
      | [] => none
      | c2 :: rest2 =>
        if c2 = REMOTES then
          match rest2 with
          | [] => none
          | s :: rest3 =>
            match decodePeer s with
            | none => none
            | some p => parsePrime (some p) rest3
        else parsePrime none (c2 :: rest2)
    else none

/-- Modelled from the spec: rendering a parsed value back to components,
following the grammar of §3
(`refs/remotes/<PeerId>/(rad/id | rad/self | rad/signed_refs |
rad/ids/<Urn> | <cat>/<path>)`, the `remotes` prefix optional).  The
rendering functions live in the `refs` module root, which is not among the
inspected sources. -/

def renderComponents (v : Parsed) : List (List Char) :=
  REFS ::
    ((match v.remote with
      | some p => [REMOTES, encodePeer p]
      | none => []) ++
     (match v.inner with
      | .rad .id => [RAD, ID]
      | .rad .me => [RAD, SELF]
      | .rad .signedRefs => [RAD, SIGNED_REFS]
      | .rad (.ids u) => [RAD, IDS, u]
      | .refs r => r.cat.asBytes :: r.name))

/-- Modelled from the spec: render a parsed value to a refname. -/

def render (v : Parsed) : List Char :=
  joinSep (renderComponents v)

/-- Separator-freedom of one component, as a boolean. -/

def noSepB : List Char → Bool
  | [] => true
  | c :: cs => (c != '/') && noSepB cs

/-- Well-formedness of a grammar value: path components and urns are
separator-free and an `unknown` category token does not collide with the
reserved tokens consumed by the parser.  These are exactly the side
conditions the round-trip counterexample forces. -/

def wellFormed : Parsed → Bool
  | ⟨_, .rad (.ids u)⟩ => noSepB u
  | ⟨_, .rad _⟩ => true
  | ⟨remote, .refs ⟨cat, name⟩⟩ =>
    !name.isEmpty && name.all noSepB &&
    (match cat with
     | .unknown t =>
       !t.isEmpty && noSepB t && (t != RAD) && (t != HEADS) && (t != NOTES) &&
         (t != TAGS) && (remote.isSome || (t != REMOTES))
     | _ => true)

/-! ### Refname helpers (`refs` module root)
The `refs` module root is not among the inspected sources; the helpers
below are modelled from the specification: §4.1 (scoped-ref rendering),
§3 (ref grammar), and the glossary (remote-tracking refs live under
`refs/remotes/<peer>/…`). -/

/-- Modelled from the spec: `refs::RadId`, the owned `rad/id` refname. -/

def RadId : List Char := "refs/rad/id".toList

/-- Modelled from the spec: `refs::RadSelf`, the owned `rad/self` refname. -/

def RadSelf : List Char := "refs/rad/self".toList

/-- Modelled from the spec: `refs::Signed`, the owned `rad/signed_refs`
refname. -/

def Signed : List Char := "refs/rad/signed_refs".toList

/-- Modelled from the spec: strip a `refs/remotes/<peer>/` prefix from a
split refname, yielding the owned components `refs/…`. -/

def ownedComponents : List (List Char) → List (List Char)
  | r :: rem :: _p :: rest =>
    if r = REFS ∧ rem = REMOTES then REFS :: rest else r :: rem :: _p :: rest
  | cs => cs

/-- Modelled from the spec: `refs::owned`, the refname without its
`remotes/<peer>` prefix. -/

def owned (name : List Char) : List Char :=
  joinSep (ownedComponents (splitSep name))

/-- Modelled from the spec: `refs::remote_tracking`, the remote-tracking
refname `refs/remotes/<peer>/…` for a (possibly already remote-tracking)
refname. -/

def remote_tracking (p : PeerId) (name : List Char) : List Char :=
  let cs := ownedComponents (splitSep name)
  let tail := match cs with
    | r :: rest => if r = REFS then rest else r :: rest
    | [] => []
  joinSep (REFS :: REMOTES :: encodePeer p :: tail)

/-- Modelled from the spec (§4.1): `refs::scoped` — the view `owner` has of
`remote`'s ref: flattened to the owned form when `owner == remote`,
otherwise the remote-tracking form under `owner`. -/

def scopedOf (id remote : PeerId) (name : List Char) : List Char :=
  if id = remote then owned name else remote_tracking id name

/-! ### Advertised refs and filtered refs (`transmit.rs`) -/

/-- A remote-advertised ref (`link_git_protocol::Ref`, unpacked): refname
and tip oid. -/

structure Ref where
  name : List Char
  tip : Oid
deriving DecidableEq, Repr

/-- `FilteredRef` from `transmit.rs`: an advertised ref together with the
peer it is attributed to. -/

structure FilteredRef where
  remote_id : PeerId
  inner : Ref
deriving DecidableEq, Repr

/-! ### Updates (`refdb.rs` interface, modelled from the spec §3) -/

/-- `Policy` from the refdb interface (spec §3). -/

inductive Policy where
  | allow : Policy
  | reject : Policy
  | abort : Policy
deriving DecidableEq, Repr

/-- `SymrefTarget` (spec §3): the target ref of a symbolic update, to be
created at `target` if absent. -/

structure SymrefTarget where
  name : List Char
  target : Oid
deriving DecidableEq, Repr

/-- `Update` (spec §3): the transactional unit consumed by
`Refdb::update`. -/

inductive Update where
  | direct (name : List Char) (target : Oid) (no_ff : Policy)
  | symbolic (name : List Char) (target : SymrefTarget) (type_change : Policy)
  | noop (name : List Char) (expect : Oid)
deriving DecidableEq, Repr

/-- Recognise a `Noop` update. -/

def Update.isNoop : Update → Bool
  | .noop _ _ => true
  | _ => false

/-! ### Signed-refs manifests (`sigrefs.rs`, modelled from the spec §3/§4.6) -/

/-- Modelled from the spec: a per-peer signed-refs manifest — the signed
`refname → oid` map, the blob oid `at` it was loaded from, and the set of
peers it transitively tracks. -/

structure Sigrefs where
  refs : List (List Char × Oid)
  atOid : Oid
  remotes : List PeerId
deriving DecidableEq, Repr

/-- Modelled from the spec: `sigrefs::Combined` — manifests per peer plus
the flattened transitive remotes. -/

structure Combined where
  refs : List (PeerId × Sigrefs)
  remotes : List PeerId
deriving DecidableEq, Repr

/-! ### The fetch phase (`link-replication/src/fetch.rs`) -/

/-- `Fetch` from `fetch.rs`. -/

structure Fetch where
  local_id : PeerId
  remote_id : PeerId
  signed_refs : Combined
deriving Repr

/-- `Fetch::signed` from `fetch.rs`: the manifest entry of `id` at
`refname`. -/

def Fetch.signed (f : Fetch) (id : PeerId) (refname : List Char) : Option Oid :=
  (f.signed_refs.refs.lookup id).bind fun s => s.refs.lookup refname

/-- `Fetch::is_tracked` from `fetch.rs`. -/

def Fetch.is_tracked (f : Fetch) (id : PeerId) : Bool :=
  f.signed_refs.remotes.contains id

/-- `Fetch::ref_filter` from `fetch.rs`: parse, attribute the remote peer
(falling back to the peer fetched from), keep only known categories that
are signed or tracked.  Note: unlike the peek phases, there is no
`remote_id == local_id` check here. -/

def Fetch.ref_filter (f : Fetch) (r : Ref) : Option FilteredRef :=
  match parse r.name with
  | none => none
  | some p =>
    let remote_id := p.remote.getD f.remote_id
    match p.inner with
    | .rad _ => none
    | .refs rn =>
      match rn.cat with
      | .unknown _ => none
      | c =>
        let refname_no_remote := joinSep (REFS :: c.asBytes :: rn.name)
        if f.is_tracked remote_id || (f.signed remote_id refname_no_remote).isSome
        then some ⟨remote_id, r⟩
        else none

/-- `WantsHaves` from `transmit.rs` (sets modelled as dedup lists). -/

structure WantsHaves where
  wanted : List FilteredRef
  wants : List Oid
  haves : List Oid
deriving DecidableEq, Repr

/-- The `want` computed by `Fetch::wants_haves` for one filtered ref:
the signed oid, or the advertised tip if the peer is tracked. -/

def Fetch.wantOf (f : Fetch) (r : FilteredRef) : Option Oid :=
  (f.signed r.remote_id (owned r.inner.name)).orElse
    (fun _ => if f.is_tracked r.remote_id then some r.inner.tip else none)

/-- One iteration of the loop in `Fetch::wants_haves` (`fetch.rs`). -/

def Fetch.whStep (f : Fetch) (db : List Char → Option Oid)
    (acc : WantsHaves) (r : FilteredRef) : WantsHaves :=
  let refname := remote_tracking r.remote_id r.inner.name
  let hv := db refname
  let haves := match hv with
    | some o => acc.haves.insert o
    | none => acc.haves
  match f.wantOf r, hv with
  | some w, some h =>
    if w = h then ⟨acc.wanted, acc.wants, haves⟩
    else ⟨acc.wanted.insert r, acc.wants.insert r.inner.tip, haves⟩
  | none, _ => ⟨acc.wanted, acc.wants, haves⟩
  | some _, none => ⟨acc.wanted.insert r, acc.wants.insert r.inner.tip, haves⟩

/-- `Fetch::wants_haves` from `fetch.rs`. -/

def Fetch.wants_haves (f : Fetch) (db : List Char → Option Oid)
    (refs : List FilteredRef) : WantsHaves :=
  refs.foldl (f.whStep db) ⟨[], [], []⟩

/-- Append an update to the group of peer `p` (the `HashMap` grouping in
`Fetch::prepare`, with groups in first-appearance order). -/

def addGroup : List (PeerId × List Update) → PeerId → Update →
    List (PeerId × List Update)
  | [], p, u => [(p, [u])]
  | (q, us) :: rest, p, u =>
    if q = p then (q, us ++ [u]) :: rest else (q, us) :: addGroup rest p u

/-- The second loop of `Fetch::prepare` (`fetch.rs`): push the sigrefs
`Noop` onto each peer's group; a peer with neither a manifest nor a
tracking entry hits `unreachable!`, modelled as `none`. -/

def Fetch.attachNoops (f : Fetch) :
    List (PeerId × List Update) → Option (List (PeerId × List Update))
  | [] => some []
  | (p, us) :: rest =>
    match f.signed_refs.refs.lookup p with
    | some s =>
      (f.attachNoops rest).map
        ((p, us ++ [.noop (remote_tracking p Signed) s.atOid]) :: ·)
    | none =>
      if f.signed_refs.remotes.contains p
      then (f.attachNoops rest).map ((p, us) :: ·)
      else none

/-- `Fetch::prepare` from `fetch.rs`, keeping the peer of each transaction
group (the source drops it with `into_values`): group the `Direct` updates
by remote peer, then pin each group with the sigrefs `Noop`. -/

def Fetch.prepare_grouped (f : Fetch) (refs : List FilteredRef) :
    Option (List (PeerId × List Update)) :=
  let grouped := refs.foldl
    (fun acc r =>
      addGroup acc r.remote_id
        (.direct (remote_tracking r.remote_id r.inner.name) r.inner.tip .allow))
    []
  f.attachNoops grouped

/-- `Fetch::prepare` from `fetch.rs` (groups only, as in the source). -/

def Fetch.prepare (f : Fetch) (refs : List FilteredRef) :
    Option (List (List Update)) :=
  (f.prepare_grouped refs).map (List.map Prod.snd)

/-- Boolean keep-condition of `Fetch::wants_haves`: a filtered ref survives
iff its want is `Some` and differs from the current value of its
remote-tracking ref. -/
def Fetch.keeps (f : Fetch) (db : List Char → Option Oid) (r : FilteredRef) : Bool :=
  (f.wantOf r).isSome && (f.wantOf r != db (remote_tracking r.remote_id r.inner.name))

/-! ### Concrete inputs used by witnesses and counterexamples -/

/-- A `Fetch` spec whose combined sigrefs track the local peer itself
(reachable: `Combined.remotes` flattens other peers' transitive remotes,
which may include the local peer). -/
def fetchSelfTracked : Fetch := ⟨0, 1, ⟨[], [0]⟩⟩

/-- An advertised ref under the local peer's own remote-tracking prefix
(`encodePeer 0 = "z"`). -/
def advSelfRef : Ref := ⟨"refs/remotes/z/heads/main".toList, 42⟩

/-- Fetch spec for the C2 witness: peer 1 has a manifest at blob 99,
peer 2 is tracked without a manifest. -/
def c2Fetch : Fetch :=
  ⟨0, 1, ⟨[(1, ⟨[("refs/heads/main".toList, 10)], 99, []⟩)], [2]⟩⟩

/-- Filtered refs for the C2 witness (`encodePeer 2 = "zaa"`). -/
def c2Refs : List FilteredRef :=
  [⟨1, ⟨"refs/heads/main".toList, 10⟩⟩,
   ⟨2, ⟨"refs/remotes/zaa/heads/x".toList, 20⟩⟩]

/-- Transaction group produced for peer 1 by `Fetch::prepare` on the C2
witness input. -/
def c2Group1 : List Update :=
  [.direct (remote_tracking 1 ("refs/heads/main".toList)) 10 .allow,
   .noop (remote_tracking 1 Signed) 99]

/-- Transaction group produced for peer 2 by `Fetch::prepare` on the C2
witness input. -/
def c2Group2 : List Update :=
  [.direct (remote_tracking 2 ("refs/remotes/zaa/heads/x".toList)) 20 .allow]

/-- The grouped output of `Fetch::prepare` on the C2 witness input. -/
def c2Out : List (PeerId × List Update) := [(1, c2Group1), (2, c2Group2)]

/-- Fetch spec for the C4 witness: peer 1 tracked, no manifests. -/
def c4Fetch : Fetch := ⟨0, 1, ⟨[], [1]⟩⟩

/-- Filtered ref for the C4 witness. -/
def c4Ref : FilteredRef := ⟨1, ⟨"refs/heads/main".toList, 7⟩⟩

/-- Empty refdb for the C4 witness. -/
def c4Db : List Char → Option Oid := fun _ => none

/-! ### Peek phases (`peek.rs`, `peek/fetch.rs`, `peek/clone.rs`) -/

/-- A verified identity (`ids.rs` is not under src/; field shape from the
spec §4.4 and the uses in `internal.rs`). -/
structure VerifiedIdentity where
  content_id : Oid
  revision : Oid
  urn : UrnT
  delegate_ids : List PeerId
  delegate_urns : List UrnT
deriving DecidableEq, Repr

/-- `error::Layout` (error.rs is not under src/; constructor shape from its
use in `peek.rs`). -/
inductive LayoutErr where
  | missingRequiredRefs (refs : List (List Char)) : LayoutErr
deriving DecidableEq, Repr

/-- `guard_required` from `peek.rs`: nothing wanted means nothing expected;
otherwise every required scoped ref must be among the wanted ones
(`BTreeSet` difference modelled as a list filter — membership is what the
claims quantify over). -/
def guard_required (requiredRefs wantedRefs : List (List Char)) :
    Except LayoutErr Unit :=
  if wantedRefs.isEmpty then .ok ()
  else
    let diff := requiredRefs.filter (fun r => !wantedRefs.contains r)
    if diff.isEmpty then .ok () else .error (.missingRequiredRefs diff)

/-- `required_refs` from `peek.rs`: `rad/id` and `rad/signed_refs`, scoped. -/
def required_refs (id remote_id : PeerId) : List (List Char) :=
  [scopedOf id remote_id RadId, scopedOf id remote_id Signed]

/-- `FilteredRef::as_scoped` from `transmit.rs`. -/
def FilteredRef.as_scoped (r : FilteredRef) (remote_id : PeerId) : List Char :=
  scopedOf r.remote_id remote_id r.inner.name

/-- The namespaced `rad/id` refname of a delegate urn
(`refs::Namespaced { namespace: Some(urn), refname: RadId }`; rendering per
the `[REFS, NAMESPACES, id, REFS, RAD, ID]` pattern matched in `lib.rs`). -/
def namespacedRadId (urn : UrnT) : List Char :=
  joinSep [REFS, NAMESPACES, urn, REFS, RAD, ID]

/-- `mk_ref_update` from `peek.rs`: `Direct` with `no_ff = Abort` for
`rad/id`, `rad/self`, `rad/signed_refs`; `Symbolic` with
`type_change = Allow` for `rad/ids/<urn>`; nothing for category refs. -/
def mk_ref_update (fref : FilteredRef) : Option Update :=
  match parse fref.inner.name with
  | none => none
  | some p =>
    let track_as := remote_tracking fref.remote_id fref.inner.name
    match p.inner with
    | .rad .id => some (.direct track_as fref.inner.tip .abort)
    | .rad .me => some (.direct track_as fref.inner.tip .abort)
    | .rad .signedRefs => some (.direct track_as fref.inner.tip .abort)
    | .rad (.ids urn) =>
      some (.symbolic track_as ⟨namespacedRadId urn, fref.inner.tip⟩ .allow)
    | .refs _ => none

/-- `DelegateIds::for_remote` from `peek.rs`: the `rad/ids/<urn>` tips seen
for one peer, as a resolver. -/
def delegateIdsFor (refs : List FilteredRef) (peer : PeerId) (urn : UrnT) :
    Option Oid :=
  (refs.filterMap (fun r =>
    match parse r.inner.name with
    | some ⟨_, .rad (.ids u)⟩ =>
      if r.remote_id = peer ∧ u = urn then some r.inner.tip else none
    | _ => none)).head?

/-- `ForFetch` from `peek/fetch.rs`. -/
structure ForFetch where
  local_id : PeerId
  remote_id : PeerId
  delegates : List PeerId
  tracked : List PeerId
deriving Repr

/-- `ForFetch::peers` from `peek/fetch.rs`. -/
def ForFetch.peers (s : ForFetch) : List PeerId :=
  (s.delegates ++ s.tracked).filter (· ≠ s.local_id)

/-- `ForFetch::required_refs` from `peek/fetch.rs`. -/
def ForFetch.requiredRefs (s : ForFetch) : List (List Char) :=
  (s.delegates.filter (· ≠ s.local_id)).flatMap
    (fun id => required_refs id s.remote_id)

/-- `ForFetch::ref_filter` from `peek/fetch.rs`: drop a parsed remote equal
to the local peer; keep `Rad` refs, attributing the connected-to peer when
no remote prefix is present. -/
def ForFetch.ref_filter (s : ForFetch) (r : Ref) : Option FilteredRef :=
  match parse r.name with
  | none => none
  | some p =>
    if p.remote = some s.local_id then none
    else
      match p.inner with
      | .rad _ => some ⟨p.remote.getD s.remote_id, r⟩
      | .refs _ => none

/-- `ForFetch::wants_haves` from `peek/fetch.rs`: record every filtered
ref's current remote-tracking value as a have; want exactly the refs of
the considered peers. -/
def ForFetch.wants_haves (s : ForFetch) (db : List Char → Option Oid)
    (refs : List FilteredRef) : WantsHaves :=
  refs.foldl
    (fun acc r =>
      let haves := match db (remote_tracking r.remote_id r.inner.name) with
        | some o => acc.haves.insert o
        | none => acc.haves
      if r.remote_id ∈ s.peers then
        ⟨acc.wanted.insert r, acc.wants.insert r.inner.tip, haves⟩
      else ⟨acc.wanted, acc.wants, haves⟩)
    ⟨[], [], []⟩

/-- `ForFetch::pre_validate` from `peek/fetch.rs`. -/
def ForFetch.pre_validate (s : ForFetch) (refs : List FilteredRef) :
    Except LayoutErr Unit :=
  guard_required s.requiredRefs (refs.map (·.as_scoped s.remote_id))

/-- `ForClone` from `peek/clone.rs`. -/
structure ForClone where
  remote_id : PeerId
deriving Repr

/-- `ForClone::required_refs` from `peek/clone.rs`. -/
def ForClone.requiredRefs (s : ForClone) : List (List Char) :=
  required_refs s.remote_id s.remote_id

/-- `ForClone::ref_filter` from `peek/clone.rs`: keep only `Rad` refs with
no `remotes/<peer>` prefix, attributed to the cloned-from peer. -/
def ForClone.ref_filter (s : ForClone) (r : Ref) : Option FilteredRef :=
  match parse r.name with
  | some ⟨none, .rad _⟩ => some ⟨s.remote_id, r⟩
  | _ => none

/-- `ForClone::wants_haves` from `peek/clone.rs`: want every advertised
tip; have whatever the refdb currently holds for the remote-tracking
name. -/
def ForClone.wants_haves (_s : ForClone) (db : List Char → Option Oid)
    (refs : List FilteredRef) : WantsHaves :=
  refs.foldl
    (fun acc r =>
      let haves := match db (remote_tracking r.remote_id r.inner.name) with
        | some o => acc.haves.insert o
        | none => acc.haves
      ⟨acc.wanted.insert r, acc.wants.insert r.inner.tip, haves⟩)
    ⟨[], [], []⟩

/-- `ForClone::pre_validate` from `peek/clone.rs`. -/
def ForClone.pre_validate (s : ForClone) (refs : List FilteredRef) :
    Except LayoutErr Unit :=
  guard_required s.requiredRefs (refs.map (·.as_scoped s.remote_id))

/-! ### The network layer (`io/net.rs`) -/

/-- A negotiation phase, as the callbacks `Net::run_fetch` consumes
(`transmit.rs`). -/
structure NegT where
  refFilter : Ref → Option FilteredRef
  wantsHaves : (List Char → Option Oid) → List FilteredRef → WantsHaves

/-- The remote side and transport of one replication run: the `ls-refs`
response, the `wanted-refs` portion of the `fetch` response, and the
objects adopted by `Odb::add_pack` — all as functions of what was asked. -/
structure NetOracle where
  lsRefs : List (List Char) → List Ref
  fetchWantedRefs : List Oid → List Ref
  packFor : List Oid → List Oid

/-- `Network::run_fetch` from `io/net.rs`: one `ls-refs`, filter, compute
wants and haves, subtract the haves; if nothing remains to want, no fetch
happens and no refs are returned.  Otherwise one `fetch`, pack adoption,
and a containment check of every returned ref's tip against the object
database.  Returns the surviving refs, the post-run odb, and whether the
fetch exchange ran. -/
def run_fetch (net : NetOracle) (odb : List Oid) (db : List Char → Option Oid)
    (prefixes : List (List Char)) (neg : NegT) :
    Except (List Char) (List FilteredRef × List Oid × Bool) :=
  let advertised := net.lsRefs prefixes
  let filtered := advertised.filterMap neg.refFilter
  let wh := neg.wantsHaves db filtered
  let wants := wh.wants.filter (fun o => !wh.haves.contains o)
  if wants.isEmpty then .ok ([], odb, false)
  else
    let resp := net.fetchWantedRefs wants
    let odb2 := odb ++ net.packFor wants
    let refsInPack := resp.filterMap neg.refFilter ++ wh.wanted
    if refsInPack.all (fun r => odb2.contains r.inner.tip)
    then .ok (refsInPack, odb2, true)
    else .error ("advertised ref not found in pack".toList)

/-- The wants of a run that remain after subtracting the haves (the set
`run_fetch` decides the early return on). -/
def remainingWants (net : NetOracle) (db : List Char → Option Oid)
    (prefixes : List (List Char)) (neg : NegT) : List Oid :=
  let wh := neg.wantsHaves db ((net.lsRefs prefixes).filterMap neg.refFilter)
  wh.wants.filter (fun o => !wh.haves.contains o)

/-- ForFetch spec for the C8 witness. -/
def c8Spec : ForFetch := ⟨0, 1, [1], []⟩

/-- Peek response refs for the C8 witness: the remote's own (flattened)
`rad/id` and `rad/signed_refs`. -/
def c8Refs : List FilteredRef :=
  [⟨1, ⟨"refs/rad/id".toList, 5⟩⟩, ⟨1, ⟨"refs/rad/signed_refs".toList, 6⟩⟩]

/-- Net oracle for the C5 witness: one advertised ref whose tip the local
db already has. -/
def c5Net : NetOracle :=
  ⟨fun _ => [⟨"refs/rad/id".toList, 5⟩], fun _ => [], fun _ => []⟩

/-- Negotiation for the C5 witness: a `ForClone` peek from peer 1. -/
def c5Neg : NegT :=
  ⟨ForClone.ref_filter ⟨1⟩, ForClone.wants_haves ⟨1⟩⟩

/-- Refdb for the C5 witness: the remote-tracking `rad/id` is already at
the advertised tip. -/
def c5Db : List Char → Option Oid :=
  fun n => if n = remote_tracking 1 ("refs/rad/id".toList) then some 5 else none

/-! ### Refdb state and transactions (`refdb.rs`, modelled from the spec §4.2) -/

/-- Modelled from the spec: a ref value — direct or symbolic. -/
inductive RefVal where
  | direct (oid : Oid) : RefVal
  | sym (target : List Char) : RefVal
deriving DecidableEq, Repr

/-- The refdb state: an association of refnames to values. -/
abbrev RefdbSt := List (List Char × RefVal)

/-- Set one ref (last write wins). -/
def setRef (st : RefdbSt) (n : List Char) (v : RefVal) : RefdbSt :=
  (n, v) :: st.filter (fun p => p.1 ≠ n)

/-- Modelled from the spec: resolve a refname to an oid, following
symbolic refs (fuel-bounded; a dangling ref resolves to `none`). -/
def resolveRef (st : RefdbSt) : Nat → List Char → Option Oid
  | 0, _ => none
  | fuel + 1, n =>
    match st.lookup n with
    | some (.direct o) => some o
    | some (.sym t) => resolveRef st fuel t
    | none => none

/-- Modelled from the spec: `Refdb::refname_to_id`. -/
def refname_to_id (st : RefdbSt) (n : List Char) : Option Oid :=
  resolveRef st 10 n

/-- `Updated` (spec §3): an applied update, as reported in `Applied`. -/
inductive Updated where
  | direct (name : List Char) (target : Oid) : Updated
  | symbolic (name : List Char) (target : List Char) : Updated
deriving DecidableEq, Repr

/-- `Applied` (spec §3). -/
structure Applied where
  updated : List Updated
  rejected : List Update
deriving DecidableEq, Repr

/-- `Applied::append`. -/
def Applied.append (a b : Applied) : Applied :=
  ⟨a.updated ++ b.updated, a.rejected ++ b.rejected⟩

/-- The error taxonomy of the pipeline (`error.rs` is not under src/;
constructors modelled from the spec §7 and the call sites in the inspected
sources). -/
inductive Err where
  | selfReplication : Err
  | missingRadId : Err
  | cloneMissingRadId : Err
  | layout (l : LayoutErr) : Err
  | verification : Err
  | confirmationRequired : Err
  | txAbort (name : List Char) : Err
  | packMissing : Err
  | sigrefsMissing (p : PeerId) : Err
  | unreachableBug : Err
  | verifyUrn (urn : UrnT) : Err
deriving DecidableEq, Repr

/-- Outcome of applying one update inside a transaction. -/
inductive StepRes where
  | cont (st : RefdbSt) (upd : Option Updated) (rej : Option Update) : StepRes
  | groupAbort : StepRes
  | fail (e : Err) : StepRes
deriving Repr

/-- Modelled from the spec (§4.2 and the design notes): apply one update.
`anc old new` is the ancestry oracle deciding fast-forwardness.  An update
that would leave the ref unchanged produces no `Updated` entry (required
by the spec's idempotence property §8); a failing `Noop` pre-image aborts
the enclosing group (spec scenario 3); `Abort` policies fail the whole
transaction. -/
def applyStep (anc : Oid → Oid → Bool) (st : RefdbSt) : Update → StepRes
  | .direct n t pol =>
    match refname_to_id st n with
    | none => .cont (setRef st n (.direct t)) (some (.direct n t)) none
    | some c =>
      if c = t then .cont st none none
      else if anc c t then .cont (setRef st n (.direct t)) (some (.direct n t)) none
      else
        match pol with
        | .allow => .cont (setRef st n (.direct t)) (some (.direct n t)) none
        | .reject => .cont st none (some (.direct n t pol))
        | .abort => .fail (.txAbort n)
  | .symbolic n tgt tc =>
    let st0 := if refname_to_id st tgt.name = none
               then setRef st tgt.name (.direct tgt.target) else st
    match st0.lookup n with
    | some (.sym t0) =>
      if t0 = tgt.name then .cont st0 none none
      else .cont (setRef st0 n (.sym tgt.name)) (some (.symbolic n tgt.name)) none
    | some (.direct _) =>
      match tc with
      | .allow =>
        .cont (setRef st0 n (.sym tgt.name)) (some (.symbolic n tgt.name)) none
      | .reject => .cont st0 none (some (.symbolic n tgt tc))
      | .abort => .fail (.txAbort n)
    | none =>
      .cont (setRef st0 n (.sym tgt.name)) (some (.symbolic n tgt.name)) none
  | .noop n e =>
    match refname_to_id st n with
    | some c => if c = e then .cont st none none else .groupAbort
    | none => .groupAbort

/-- Transaction loop: apply the group's updates in order; a group abort
rolls the state back and reports the whole group as rejected. -/
def applyTxGo (anc : Oid → Oid → Bool) (orig : RefdbSt) (grp : List Update) :
    RefdbSt → List Update → Applied → Except Err (RefdbSt × Applied)
  | st, [], acc => .ok (st, acc)
  | st, u :: rest, acc =>
    match applyStep anc st u with
    | .cont st2 upd rej =>
      applyTxGo anc orig grp st2 rest
        ⟨acc.updated ++ upd.toList, acc.rejected ++ rej.toList⟩
    | .groupAbort => .ok (orig, ⟨[], grp⟩)
    | .fail e => .error e

/-- Modelled from the spec (§4.2): `Refdb::update` on one transaction
group. -/
def applyTx (anc : Oid → Oid → Bool) (st : RefdbSt) (grp : List Update) :
    Except Err (RefdbSt × Applied) :=
  applyTxGo anc st grp st grp ⟨[], []⟩

/-- Apply the prepared groups in order (`exec.rs`), accumulating
`Applied`. -/
def applyGroups (anc : Oid → Oid → Bool) :
    RefdbSt → List (List Update) → Except Err (RefdbSt × Applied)
  | st, [] => .ok (st, ⟨[], []⟩)
  | st, g :: gs =>
    match applyTx anc st g with
    | .error e => .error e
    | .ok (st1, ap1) =>
      match applyGroups anc st1 gs with
      | .error e => .error e
      | .ok (st2, ap2) => .ok (st2, ap1.append ap2)

/-! ### The world: state plus the oracles of the out-of-scope collaborators -/

/-- The state of one replication context together with the oracles for the
external collaborators (transport, identity verification, sigrefs blobs,
ancestry).  Oracles are pure functions: an unchanged remote is a constant
`lsRefs`/`fetchWantedRefs`/`packFor`. -/
structure World where
  local_id : PeerId
  refdb : RefdbSt
  odb : List Oid
  trackedGlobal : List PeerId
  trackedUrn : List (UrnT × PeerId)
  net : NetOracle
  verifyAt : Oid → Option VerifiedIdentity
  verifyUrnAt : UrnT → Option VerifiedIdentity
  newerFn : VerifiedIdentity → VerifiedIdentity → VerifiedIdentity
  sigrefsAt : Oid → Option (List (List Char × Oid) × List PeerId)
  computeOwnSigrefs : RefdbSt → Oid
  anc : Oid → Oid → Bool

/-- Modelled from the spec: `ids::current` — read the owned `rad/id` and
verify it (`Identities::verify` is modelled as the pure oracle `verifyAt`
on the blob oid; the delegate resolver is internal to the verifier). -/
def idsCurrentE (w : World) : Except Err (Option VerifiedIdentity) :=
  match refname_to_id w.refdb RadId with
  | none => .ok none
  | some o =>
    match w.verifyAt o with
    | some vi => .ok (some vi)
    | none => .error .verification

/-- Modelled from the spec (§4.11 step 3): fold the delegates' verified
remote-tracking `rad/id` identities with `Identities::newer`. -/
def idsNewest (w : World) (peers : List PeerId) : Option VerifiedIdentity :=
  peers.foldl
    (fun acc p =>
      match (refname_to_id w.refdb (remote_tracking p RadId)).bind w.verifyAt with
      | none => acc
      | some vi =>
        match acc with
        | none => some vi
        | some cur => some (w.newerFn cur vi))
    none

/-- Modelled from the spec (§4.6): the transitive remotes of a peer's
signed refs, up to `cutoff` hops, read from the local refdb. -/
def loadRemotes (w : World) : Nat → PeerId → List PeerId
  | 0, _ => []
  | fuel + 1, p =>
    match (refname_to_id w.refdb (remote_tracking p Signed)).bind w.sigrefsAt with
    | none => []
    | some (_, rems) => rems ++ rems.flatMap (loadRemotes w fuel)

/-- Modelled from the spec (§4.6): `SignedRefs::load` — the peer's latest
signed-refs manifest held locally, with transitive remotes flattened. -/
def loadSigrefs (w : World) (cutoff : Nat) (p : PeerId) : Option Sigrefs :=
  match refname_to_id w.refdb (remote_tracking p Signed) with
  | none => none
  | some blob =>
    match w.sigrefsAt blob with
    | none => none
    | some (refsMap, rems) =>
      some ⟨refsMap, blob, rems ++ rems.flatMap (loadRemotes w cutoff)⟩

/-- Modelled from the spec (§4.6): `SignedRefs::combined` — `must` peers
fail when missing, `may` peers are best-effort; remotes are the flattened
transitive remotes of every loaded manifest. -/
def combinedSigrefs (w : World) (must may : List PeerId) (cutoff : Nat) :
    Except Err Combined :=
  match must.mapM (fun p =>
    match loadSigrefs w cutoff p with
    | some s => Except.ok ((p, s) : PeerId × Sigrefs)
    | none => Except.error (Err.sigrefsMissing p)) with
  | .error e => .error e
  | .ok mustLoaded =>
    let mayLoaded := may.filterMap
      (fun p => (loadSigrefs w cutoff p).map (fun s => (p, s)))
    let all := mustLoaded ++ mayLoaded
    .ok ⟨all, (all.map (fun ps => ps.2.remotes)).flatten⟩

/-- Modelled from the spec: `Tracking::tracked` (`None` means global). -/
def trackedPeers (w : World) (urn : Option UrnT) : List PeerId :=
  match urn with
  | none => w.trackedGlobal
  | some u => (w.trackedUrn.filter (fun x => x.1 = u)).map (·.2)

/-- Modelled from the spec: `Tracking::track`. -/
def trackPeer (w : World) (p : PeerId) (urn : Option UrnT) : World :=
  match urn with
  | none => { w with trackedGlobal := w.trackedGlobal.insert p }
  | some u => { w with trackedUrn := w.trackedUrn.insert (u, p) }

/-! ### The exec loop (`exec.rs`) and the phase dispatch -/

/-- Trace events: the refdb reload and the two network suspension points,
plus the entry into `internal::pull`. -/
inductive Ev where
  | reload : Ev
  | lsRefs : Ev
  | fetchEx : Ev
  | internalPull : Ev
deriving DecidableEq, Repr

/-- `Fetch`'s `Layout::pre_validate` from `fetch.rs`: always `Ok` — the
fetch phase may request arbitrary subsets. -/
def Fetch.pre_validate (_f : Fetch) (_refs : List FilteredRef) :
    Except LayoutErr Unit :=
  .ok ()

/-- The three phase specs driven through `exec` (`peek::ForClone`,
`peek::ForFetch`, `fetch::Fetch`). -/
inductive SpecKind where
  | forClone (s : ForClone) : SpecKind
  | forFetch (s : ForFetch) : SpecKind
  | fetchPhase (f : Fetch) : SpecKind

/-- The scoped prefixes of the two peek verification-ref sets
(`ref_prefixes` in `peek.rs`; `Prefix::RadIds` rendered as the
`refs/rad/ids` prefix). -/
def refPrefixesPeek (id remote : PeerId) : List (List Char) :=
  [scopedOf id remote RadId, scopedOf id remote RadSelf,
   scopedOf id remote (joinSep [REFS, RAD, IDS]), scopedOf id remote Signed]

/-- `Negotiation::ref_prefixes` per phase (`peek/clone.rs`,
`peek/fetch.rs`, `fetch.rs`; the sort+dedup done in `io/net.rs` only
normalises the argument of `ls-refs` and is left to the transport
oracle). -/
def SpecKind.prefixes : SpecKind → List (List Char)
  | .forClone s => refPrefixesPeek s.remote_id s.remote_id
  | .forFetch s => s.peers.flatMap (fun id => refPrefixesPeek id s.remote_id)
  | .fetchPhase f =>
    (f.signed_refs.remotes.filter (· ≠ f.local_id)).flatMap
      (fun id =>
        [scopedOf id f.remote_id (joinSep [REFS, HEADS]),
         scopedOf id f.remote_id (joinSep [REFS, NOTES]),
         scopedOf id f.remote_id (joinSep [REFS, TAGS])]) ++
    (f.signed_refs.refs.filter (fun x => x.1 ≠ f.local_id)).flatMap
      (fun x => x.2.refs.map (fun nr => scopedOf x.1 f.remote_id nr.1))

/-- The negotiation callbacks of a phase. -/
def SpecKind.negOf : SpecKind → NegT
  | .forClone s => ⟨s.ref_filter, s.wants_haves⟩
  | .forFetch s => ⟨s.ref_filter, s.wants_haves⟩
  | .fetchPhase f => ⟨f.ref_filter, f.wants_haves⟩

/-- `Layout::pre_validate` per phase. -/
def SpecKind.preValidateOf : SpecKind → List FilteredRef → Except LayoutErr Unit
  | .forClone s, refs => s.pre_validate refs
  | .forFetch s, refs => s.pre_validate refs
  | .fetchPhase f, refs => f.pre_validate refs

/-- `ForClone`'s `UpdateTips::prepare` from `peek/clone.rs`: find the
cloned-from peer's `rad/id` (`expect`: `pre_validate` guarantees it),
verify, and emit one group of updates iff the peer delegates to itself. -/
def prepareClone (w : World) (s : ForClone) (refs : List FilteredRef) :
    Except Err (List (List Update)) :=
  match refs.find? (fun r =>
      r.remote_id == s.remote_id && r.inner.name == RadId) with
  | none => .error .unreachableBug
  | some idRef =>
    match w.verifyAt idRef.inner.tip with
    | none => .error .verification
    | some verified =>
      if s.remote_id ∈ verified.delegate_ids
      then .ok [refs.filterMap mk_ref_update]
      else .ok []

/-- The loop of `ForFetch`'s `UpdateTips::prepare` (`peek/fetch.rs`):
verify each delegate `rad/id`, bucket updates into the delegate and
non-delegate groups. -/
def prepareForFetchGo (w : World) (s : ForFetch) :
    List FilteredRef → List Update → List Update →
    Except Err (List (List Update))
  | [], dele, other => .ok [dele, other]
  | r :: rest, dele, other =>
    let isDel := r.remote_id ∈ s.delegates
    let verif : Except Err Unit :=
      if isDel ∧ ("rad/id".toList).isSuffixOf r.inner.name then
        match w.verifyAt r.inner.tip with
        | none => .error .verification
        | some _ => .ok ()
      else .ok ()
    match verif with
    | .error e => .error e
    | .ok () =>
      match mk_ref_update r with
      | some u =>
        if isDel then prepareForFetchGo w s rest (dele ++ [u]) other
        else prepareForFetchGo w s rest dele (other ++ [u])
      | none => prepareForFetchGo w s rest dele other

/-- `UpdateTips::prepare` per phase (the fetch phase's `unreachable!` is
the `none` of `Fetch.prepare`). -/
def SpecKind.prepareOf (w : World) :
    SpecKind → List FilteredRef → Except Err (List (List Update))
  | .forClone s, refs => prepareClone w s refs
  | .forFetch s, refs => prepareForFetchGo w s refs [] []
  | .fetchPhase f, refs =>
    match f.prepare refs with
    | some gs => .ok gs
    | none => .error .unreachableBug

/-- What moves in must move out (`exec.rs`). -/
structure ExecOut where
  refs : List FilteredRef
  applied : Applied

/-- `exec` from `exec.rs`: reload, one `run_fetch`, `pre_validate`,
`prepare`, then the grouped transactions in order.  The second component
is the trace of the reload and the network suspension points. -/
def exec (w : World) (sp : SpecKind) :
    Except Err (ExecOut × World) × List Ev :=
  match run_fetch w.net w.odb (refname_to_id w.refdb) sp.prefixes sp.negOf with
  | .error _ => (.error .packMissing, [.reload, .lsRefs, .fetchEx])
  | .ok (refs, odb2, df) =>
    let evs := if df then [Ev.reload, Ev.lsRefs, Ev.fetchEx]
               else [Ev.reload, Ev.lsRefs]
    match sp.preValidateOf refs with
    | .error e => (.error (.layout e), evs)
    | .ok () =>
      match sp.prepareOf w refs with
      | .error e => (.error e, evs)
      | .ok groups =>
        match applyGroups w.anc w.refdb groups with
        | .error e => (.error e, evs)
        | .ok (st2, ap) =>
          (.ok (⟨refs, ap⟩, { w with refdb := st2, odb := odb2 }), evs)

/-! ### `setup_rad` and `pull` (`internal.rs`), `pull`/`clone` (`lib.rs`) -/

/-- The delegate-urn loop of `setup_rad` (`internal.rs`): verify each
delegate urn (no indirects), track its delegate keys globally and under
the urn, and collect the `Symbolic` update `refs/rad/ids/<urn>` pointing
at the delegate's namespaced `rad/id`. -/
def setupRadGo : World → List UrnT → List Update →
    Except Err (World × List Update)
  | w, [], acc => .ok (w, acc)
  | w, urn :: rest, acc =>
    match w.verifyUrnAt urn with
    | none => .error (.verifyUrn urn)
    | some delegate =>
      let w2 := delegate.delegate_ids.foldl
        (fun wa p => trackPeer (trackPeer wa p none) p (some urn)) w
      setupRadGo w2 rest
        (acc ++ [.symbolic (joinSep [REFS, RAD, IDS, urn])
          ⟨namespacedRadId urn, delegate.content_id⟩ .allow])

/-- The transaction tail of `setup_rad` (`internal.rs`): append the
optional `rad/self` update from `whoami` (`no_ff = Reject`) and the final
`rad/id` update to the chosen identity's `content_id` (`no_ff = Reject`),
and apply the whole list as one transaction. -/
def setupRadFinish (w2 : World) (newest : VerifiedIdentity)
    (whoami : Option Oid) (up0 : List Update) : Except Err (Applied × World) :=
  let up1 := match whoami with
    | some tip => up0 ++ [.direct RadSelf tip .reject]
    | none => up0
  let up := up1 ++ [.direct RadId newest.content_id .reject]
  match applyTx w2.anc w2.refdb up with
  | .error e => .error e
  | .ok (st2, ap) => .ok (ap, { w2 with refdb := st2 })

/-- `setup_rad` from `internal.rs`: choose between ours and theirs
(returning `ConfirmationRequired` when theirs is ahead of an identity
delegating to us), set up the delegate-urn symrefs and tracking, update
`rad/self` from `whoami` (`no_ff = Reject`) and finally `rad/id` to the
chosen identity's `content_id` (`no_ff = Reject`), in one transaction. -/
def setup_rad (w : World) (theirs : VerifiedIdentity) (whoami : Option Oid) :
    Except Err (Applied × World) :=
  match idsCurrentE w with
  | .error e => .error e
  | .ok cur =>
    let newestE : Except Err VerifiedIdentity :=
      match cur with
      | some ours =>
        if w.local_id ∈ ours.delegate_ids ∧ ours.revision ≠ theirs.revision then
          let tip := ours.content_id
          let newer := w.newerFn ours theirs
          if newer.content_id ≠ tip then .error .confirmationRequired
          else .ok newer
        else .ok theirs
      | none => .ok theirs
    match newestE with
    | .error e => .error e
    | .ok newest =>
      match setupRadGo w newest.delegate_urns [] with
      | .error e => .error e
      | .ok (w2, up0) => setupRadFinish w2 newest whoami up0

/-- The identity `setup_rad` settles on (the `newest` local of
`internal.rs`); meaningful when no confirmation is required. -/
def setupNewest (w : World) (theirs : VerifiedIdentity) : VerifiedIdentity :=
  match idsCurrentE w with
  | .ok (some ours) =>
    if w.local_id ∈ ours.delegate_ids ∧ ours.revision ≠ theirs.revision
    then w.newerFn ours theirs
    else theirs
  | _ => theirs

/-- `Success` from `lib.rs` (the validation warnings are modelled away:
`validate` is non-fatal and no claim quantifies over it). -/
structure Success where
  applied : Applied
  requires_confirmation : Bool
deriving DecidableEq, Repr

/-- The tracked-set computation at the head of `internal::pull`
(`internal.rs` lines 55-75): global ∪ per-urn ∪ the delegates' transitive
signed remotes, minus the delegates and the local peer. -/
def computeTracked (w : World) (id : VerifiedIdentity) : List PeerId :=
  let here := trackedPeers w none
  let there := trackedPeers w (some id.urn)
  let transitive := id.delegate_ids.flatMap
    (fun d =>
      match loadSigrefs w 3 d with
      | some s => s.remotes
      | none => [])
  (here ++ there ++ transitive).filter
    (fun p => p ∉ id.delegate_ids ∧ p ≠ w.local_id)

/-- The tail of `internal::pull` (`internal.rs`): combined sigrefs
selection, the fetch phase, the local sigrefs update (skipped when the
recomputed blob is unchanged), the second combined selection and the
(non-fatal) validation. -/
def pullFetchStage (w : World) (applied0 : Applied) (rc : Bool)
    (delegates tracked : List PeerId) (remote_id : PeerId) :
    Except Err (Success × World) × List Ev :=
  match combinedSigrefs w delegates tracked 3 with
  | .error e => (.error e, [])
  | .ok comb =>
    match exec w (.fetchPhase ⟨w.local_id, remote_id, comb⟩) with
    | (.error e, evs) => (.error e, evs)
    | (.ok (out2, w2), evs2) =>
      let newBlob := w2.computeOwnSigrefs w2.refdb
      let applied1 := applied0.append out2.applied
      let (w3, applied2) :=
        if refname_to_id w2.refdb Signed = some newBlob then (w2, applied1)
        else ({ w2 with refdb := setRef w2.refdb Signed (.direct newBlob) },
              applied1.append ⟨[.direct Signed newBlob], []⟩)
      match combinedSigrefs w3 delegates tracked 3 with
      | .error e => (.error e, evs2)
      | .ok _ => (.ok (⟨applied2, rc⟩, w3), evs2)

/-- `internal::pull` from `internal.rs`: tracked-set computation, the
`ForFetch` peek, the identity reconciliation via `setup_rad`
(`ConfirmationRequired` surfacing as `requires_confirmation = true`), then
the fetch stage. -/
def internal_pull (w : World) (id : VerifiedIdentity) (remote_id : PeerId)
    (whoami : Option Oid) : Except Err (Success × World) × List Ev :=
  let tracked := computeTracked w id
  match exec w (.forFetch ⟨w.local_id, remote_id, id.delegate_ids, tracked⟩) with
  | (.error e, evs1) => (.error e, .internalPull :: evs1)
  | (.ok (out1, w1), evs1) =>
    let dlgs := id.delegate_ids.filter (· ≠ w.local_id)
    match idsNewest w1 dlgs with
    | none =>
      match pullFetchStage w1 out1.applied false id.delegate_ids tracked
          remote_id with
      | (res, evs2) => (res, .internalPull :: (evs1 ++ evs2))
    | some newest =>
      match setup_rad w1 newest whoami with
      | .ok (ap2, w2) =>
        match pullFetchStage w2 (out1.applied.append ap2) false
            id.delegate_ids tracked remote_id with
        | (res, evs2) => (res, .internalPull :: (evs1 ++ evs2))
      | .error .confirmationRequired =>
        match pullFetchStage w1 out1.applied true id.delegate_ids tracked
            remote_id with
        | (res, evs2) => (res, .internalPull :: (evs1 ++ evs2))
      | .error e => (.error e, .internalPull :: evs1)

/-- `pull` from `lib.rs`: the self-replication guard, then the current
identity, then `internal::pull`. -/
def pull (w : World) (remote_id : PeerId) (whoami : Option Oid) :
    Except Err (Success × World) × List Ev :=
  if w.local_id = remote_id then (.error .selfReplication, [])
  else
    match idsCurrentE w with
    | .error e => (.error e, [])
    | .ok none => (.error .missingRadId, [])
    | .ok (some id) => internal_pull w id remote_id whoami

/-- `clone` from `lib.rs`: the `ForClone` peek (no self-replication
guard), find and verify the cloned-from peer's `rad/id`, then
`internal::pull` directly. -/
def clone (w : World) (remote_id : PeerId) (whoami : Option Oid) :
    Except Err (Success × World) × List Ev :=
  match exec w (.forClone ⟨remote_id⟩) with
  | (.error e, evs1) => (.error e, evs1)
  | (.ok (out, w1), evs1) =>
    match out.refs.find? (fun r =>
        r.remote_id == remote_id && ("rad/id".toList).isSuffixOf r.inner.name) with
    | none => (.error .cloneMissingRadId, evs1)
    | some idRef =>
      match w1.verifyAt idRef.inner.tip with
      | none => (.error .verification, evs1)
      | some id =>
        match internal_pull w1 id remote_id whoami with
        | (.error e, evs2) => (.error e, evs1 ++ evs2)
        | (.ok (s, w2), evs2) =>
          (.ok (⟨out.applied.append s.applied, s.requires_confirmation⟩, w2),
           evs1 ++ evs2)

/-- A world where the local peer clones from itself: the advertisement
holds the peer's own `rad/id` and `rad/signed_refs`, verification of blob
5 yields an identity delegating to peer 0, and the pack provides exactly
what is wanted. -/
def c7World : World :=
  { local_id := 0
    refdb := []
    odb := []
    trackedGlobal := []
    trackedUrn := []
    net := ⟨fun _ => [⟨"refs/rad/id".toList, 5⟩, ⟨"refs/rad/signed_refs".toList, 6⟩],
            fun _ => [], fun l => l⟩
    verifyAt := fun o => if o = 5 then some ⟨5, 50, "u".toList, [0], []⟩ else none
    verifyUrnAt := fun _ => none
    newerFn := fun _ b => b
    sigrefsAt := fun o => if o = 6 then some ([], []) else none
    computeOwnSigrefs := fun _ => 6
    anc := fun _ _ => true }

/-- An update that can neither abort the transaction nor be a `Noop`
(the shape of every update `setup_rad` emits before the final `rad/id`
one). -/
def Update.noAbortNoNoop : Update → Prop
  | .direct _ _ pol => pol ≠ .abort
  | .symbolic _ _ tc => tc ≠ .abort
  | .noop _ _ => False

/-- A local identity delegating to peer 5 (not the local peer 0), held at
blob 9. -/
def c3Ours : VerifiedIdentity := ⟨9, 90, "u".toList, [5], []⟩

/-- The remote-side newest identity at blob 7, forked from ours. -/
def c3Theirs : VerifiedIdentity := ⟨7, 70, "u".toList, [1], []⟩

/-- World for the C3 counterexample: local `rad/id` is at blob 9 (an
identity not delegating to us), and blob 7 is not a fast-forward of 9. -/
def c3W : World :=
  { local_id := 0
    refdb := [(RadId, .direct 9)]
    odb := []
    trackedGlobal := []
    trackedUrn := []
    net := ⟨fun _ => [], fun _ => [], fun _ => []⟩
    verifyAt := fun o => if o = 9 then some c3Ours else none
    verifyUrnAt := fun _ => none
    newerFn := fun a _ => a
    sigrefsAt := fun _ => none
    computeOwnSigrefs := fun _ => 0
    anc := fun _ _ => false }

/-- Boolean evaluation of `setup_rad` on the C3 counterexample world: the
call succeeds (so `pull` would report `requires_confirmation = false`),
the `rad/id` update is rejected by the `no_ff = Reject` policy, and
`rad/id` still points at blob 9. -/
def c3CheckB : Bool :=
  match setup_rad c3W c3Theirs none with
  | .ok (ap, w2) =>
    ap.updated.isEmpty && (ap.rejected == [.direct RadId 7 .reject]) &&
      (refname_to_id w2.refdb RadId == some 9)
  | .error _ => false

/-- World for the C3 witness: no local `rad/id` at all, so `setup_rad`
installs theirs. -/
def c3GoodW : World :=
  { c3W with refdb := [], verifyAt := fun _ => none }

/-- The `Applied` of `setup_rad` on the witness world. -/
def c3GoodAp : Applied :=
  match setup_rad c3GoodW c3Theirs none with
  | .ok (ap, _) => ap
  | .error _ => ⟨[], []⟩

/-- The world after `setup_rad` on the witness world. -/
def c3GoodW2 : World :=
  match setup_rad c3GoodW c3Theirs none with
  | .ok (_, w2) => w2
  | .error _ => c3GoodW

/-! ### Concrete worlds for the idempotence claim (C10) -/

/-- The identity of the C10 runs: blob 5, delegating to peer 1. -/
def c10Id : VerifiedIdentity := ⟨5, 50, "u".toList, [1], []⟩

/-- The unchanged advertisement of the C10 remote (peer 1, `za`): its own
verification refs and head, plus the verification refs and head it holds
for peer 2 (`zaa`), whose sigrefs it signs as a transitive remote. -/
def c10Adv : List Ref :=
  [⟨"refs/remotes/za/rad/id".toList, 5⟩,
   ⟨"refs/remotes/za/rad/signed_refs".toList, 6⟩,
   ⟨"refs/remotes/zaa/rad/id".toList, 10⟩,
   ⟨"refs/remotes/zaa/rad/signed_refs".toList, 9⟩,
   ⟨"refs/heads/main".toList, 7⟩,
   ⟨"refs/remotes/zaa/heads/main".toList, 8⟩]

/-- Start world of the C10 counterexample: we hold our own `rad/id` and
sigrefs blob but nothing of the remote yet.  All oracles are constant
functions — nothing changes on the remote side between the two runs. -/
def c10W : World :=
  { local_id := 0
    refdb := [(RadId, .direct 5), (Signed, .direct 100)]
    odb := []
    trackedGlobal := []
    trackedUrn := []
    net := ⟨fun _ => c10Adv, fun _ => [], fun l => l⟩
    verifyAt := fun o => if o = 5 then some c10Id else none
    verifyUrnAt := fun _ => none
    newerFn := fun _ b => b
    sigrefsAt := fun o =>
      if o = 6 then some ([("refs/heads/main".toList, 7)], [2])
      else if o = 9 then some ([("refs/heads/main".toList, 8)], [])
      else none
    computeOwnSigrefs := fun _ => 100
    anc := fun _ _ => true }

/-- First C10 run. -/
def c10Run1 : Except Err (Success × World) := (pull c10W 1 none).1

/-- World after the first C10 run. -/
def c10W1 : World :=
  match c10Run1 with
  | .ok (_, w) => w
  | .error _ => c10W

/-- Second C10 run, from the post-run-1 world, same remote, no remote
change. -/
def c10Run2 : Except Err (Success × World) := (pull c10W1 1 none).1

/-- The applied updates of the second C10 run. -/
def c10Run2Updated : Option (List Updated) :=
  match c10Run2 with
  | .ok (s, _) => some s.applied.updated
  | .error _ => none

/-- A converged world for the C10 witness: every negotiation wants
nothing, the identity refs are at their targets, and the recomputed
sigrefs blob is unchanged. -/
def c10ConvW : World :=
  { local_id := 0
    refdb := [(RadId, .direct 5), (Signed, .direct 100),
              ("refs/remotes/za/rad/id".toList, .direct 5),
              ("refs/remotes/za/rad/signed_refs".toList, .direct 6),
              ("refs/remotes/za/heads/main".toList, .direct 7)]
    odb := [5, 6, 7]
    trackedGlobal := []
    trackedUrn := []
    net := ⟨fun _ => [⟨"refs/remotes/za/rad/id".toList, 5⟩,
                      ⟨"refs/remotes/za/rad/signed_refs".toList, 6⟩,
                      ⟨"refs/heads/main".toList, 7⟩],
            fun _ => [], fun l => l⟩
    verifyAt := fun o => if o = 5 then some c10Id else none
    verifyUrnAt := fun _ => none
    newerFn := fun _ b => b
    sigrefsAt := fun o =>
      if o = 6 then some ([("refs/heads/main".toList, 7)], []) else none
    computeOwnSigrefs := fun _ => 100
    anc := fun _ _ => true }

/-- The success value of a pull from the converged world. -/
def c10ConvS : Success :=
  match (pull c10ConvW 1 none).1 with
  | .ok (s, _) => s
  | .error _ => ⟨⟨[], []⟩, false⟩

/-- The world after a pull from the converged world. -/
def c10ConvW2 : World :=
  match (pull c10ConvW 1 none).1 with
  | .ok (_, w) => w
  | .error _ => c10ConvW

/-- The trace of a pull from the converged world. -/
def c10ConvEvs : List Ev := (pull c10ConvW 1 none).2

/-! ## Theorems -/

theorem decodePeer_encodePeer (p : PeerId) : decodePeer (encodePeer p) = some p := by
  simp [encodePeer, decodePeer, List.all_eq_true]

theorem encodePeer_no_sep (p : PeerId) : '/' ∉ encodePeer p := by
  simp [encodePeer, List.mem_replicate]

theorem splitSep_ne_nil (cs : List Char) : splitSep cs ≠ [] := by
  induction cs with
  | nil => simp [splitSep]
  | cons c cs ih =>
    simp only [splitSep]
    match h : splitSep cs with
    | [] => exact absurd h ih
    | p :: ps =>
      by_cases hc : c = '/' <;> simp [hc]

theorem splitSep_noSep (p : List Char) (h : '/' ∉ p) : splitSep p = [p] := by
  induction p with
  | nil => simp [splitSep]
  | cons c cs ih =>
    simp only [List.mem_cons, not_or] at h
    have hc : c ≠ '/' := fun hc => h.1 hc.symm
    simp only [splitSep, ih h.2]
    simp [hc]

theorem splitSep_append (p rest : List Char) (h : '/' ∉ p) :
    splitSep (p ++ '/' :: rest) = p :: splitSep rest := by
  induction p with
  | nil =>
    simp only [List.nil_append, splitSep]
    match hr : splitSep rest with
    | [] => exact absurd hr (splitSep_ne_nil rest)
    | q :: qs => simp
  | cons c cs ih =>
    simp only [List.mem_cons, not_or] at h
    have hc : c ≠ '/' := fun hc => h.1 hc.symm
    have heq := ih h.2
    simp only [List.cons_append, splitSep, List.append_eq]
    rw [heq]
    simp [hc]

theorem splitSep_joinSep (ps : List (List Char)) (hne : ps ≠ [])
    (h : ∀ p ∈ ps, '/' ∉ p) : splitSep (joinSep ps) = ps := by
  induction ps with
  | nil => exact absurd rfl hne
  | cons p ps ih =>
    match ps with
    | [] =>
      simp only [joinSep]
      exact splitSep_noSep p (h p (by simp))
    | q :: qs =>
      have hp : '/' ∉ p := h p (by simp)
      have hrest : ∀ r ∈ q :: qs, '/' ∉ r := fun r hr => h r (by simp [hr])
      simp only [joinSep]
      rw [splitSep_append p _ hp, ih (by simp) hrest]

theorem noSepB_iff (cs : List Char) : noSepB cs = true ↔ '/' ∉ cs := by
  induction cs with
  | nil => simp [noSepB]
  | cons c cs ih =>
    simp only [noSepB, Bool.and_eq_true, bne_iff_ne, ih, List.mem_cons, not_or]
    constructor
    · rintro ⟨h1, h2⟩; exact ⟨fun he => h1 he.symm, h2⟩
    · rintro ⟨h1, h2⟩; exact ⟨fun he => h1 he.symm, h2⟩

theorem encodePeer_noSepB (p : PeerId) : noSepB (encodePeer p) = true :=
  (noSepB_iff _).mpr (encodePeer_no_sep p)

theorem noSepB_replicate_a (n : Nat) : noSepB (List.replicate n 'a') = true := by
  induction n with
  | zero => decide
  | succ n ih => simp [List.replicate, noSepB, ih]

theorem renderComponents_all_noSep (v : Parsed) (h : wellFormed v = true) :
    (renderComponents v).all noSepB = true := by
  obtain ⟨remote, inner⟩ := v
  rcases inner with (r | ⟨cat, name⟩)
  · rcases r with _ | _ | _ | u <;> rcases remote with _ | pid <;>
      simp_all [renderComponents, wellFormed, List.all_cons, encodePeer_noSepB,
        noSepB, noSepB_replicate_a]
  · rcases cat with _ | _ | _ | t <;> rcases remote with _ | pid <;>
      simp_all [renderComponents, wellFormed, List.all_cons, List.all_append,
        encodePeer_noSepB, Cat.asBytes] <;>
      decide

theorem renderComponents_noSep (v : Parsed) (h : wellFormed v = true) :
    ∀ p ∈ renderComponents v, '/' ∉ p := by
  intro p hp
  have := renderComponents_all_noSep v h
  rw [List.all_eq_true] at this
  exact (noSepB_iff p).mp (this p hp)

theorem renderComponents_ne_nil (v : Parsed) : renderComponents v ≠ [] := by
  obtain ⟨remote, inner⟩ := v
  simp [renderComponents]

theorem splitSep_render (v : Parsed) (h : wellFormed v = true) :
    splitSep (render v) = renderComponents v :=
  splitSep_joinSep _ (renderComponents_ne_nil v) (renderComponents_noSep v h)

/-- Claim C9 counterexample: the grammar value with category
`Cat::Unknown("heads")` and path `["x"]` renders to `refs/heads/x`, which
parses back with category `Cat::Heads` — so `parse (render v) ≠ some v` for
this constructor combination, refuting the round-trip claim as stated. -/

theorem c9_counterexample :
    parse (render ⟨none, .refs ⟨.unknown HEADS, [['x']]⟩⟩) =
        some ⟨none, .refs ⟨.heads, [['x']]⟩⟩ ∧
      parse (render ⟨none, .refs ⟨.unknown HEADS, [['x']]⟩⟩) ≠
        some ⟨none, .refs ⟨.unknown HEADS, [['x']]⟩⟩ := by
  constructor <;> decide

/-- Claim C9 (amended): for every value of the parsed ref grammar whose
path components, urn and unknown-category token are separator-free and
whose unknown-category token does not collide with a reserved token
(`rad`, `heads`, `notes`, `tags`, and `remotes` in the absence of a remote
prefix), rendering to a refname and parsing the result yields the same
value: `parse (render v) = some v`. -/

theorem c9_parse_render_roundtrip (v : Parsed) (h : wellFormed v = true) :
    parse (render v) = some v := by
  have hsplit := splitSep_render v h
  obtain ⟨remote, inner⟩ := v
  unfold parse
  rw [hsplit]
  rcases inner with (r | ⟨cat, name⟩)
  · rcases r with _ | _ | _ | u <;> rcases remote with _ | pid <;>
      simp +decide [renderComponents, parsePrime, decodePeer_encodePeer]
  · rcases cat with _ | _ | _ | t <;> rcases remote with _ | pid <;>
      simp_all +decide [renderComponents, wellFormed, parsePrime, Cat.asBytes,
        decodePeer_encodePeer, bne_iff_ne]

/-- Witness for the amended C9 round-trip at a concrete grammar value. -/

theorem c9_witness :
    wellFormed ⟨some 2, .refs ⟨.unknown "strange".toList, ["a".toList, "b".toList]⟩⟩ = true ∧
      parse (render ⟨some 2, .refs ⟨.unknown "strange".toList, ["a".toList, "b".toList]⟩⟩) =
        some ⟨some 2, .refs ⟨.unknown "strange".toList, ["a".toList, "b".toList]⟩⟩ :=
  ⟨by decide, c9_parse_render_roundtrip _ (by decide)⟩

theorem whStep_wanted (f : Fetch) (db : List Char → Option Oid)
    (acc : WantsHaves) (r s : FilteredRef) :
    s ∈ (f.whStep db acc r).wanted ↔
      s ∈ acc.wanted ∨ (s = r ∧ f.keeps db r = true) := by
  unfold Fetch.whStep Fetch.keeps
  cases hw : f.wantOf r with
  | none =>
    cases hv : db (remote_tracking r.remote_id r.inner.name) <;>
      simp [hw, hv]
  | some w =>
    cases hv : db (remote_tracking r.remote_id r.inner.name) with
    | none =>
      simp [hw, hv, List.mem_insert_iff]
      exact or_comm
    | some h =>
      by_cases hwh : w = h <;>
        simp [hw, hv, hwh, List.mem_insert_iff]
      exact or_comm

theorem whStep_wants_mono (f : Fetch) (db : List Char → Option Oid)
    (acc : WantsHaves) (r : FilteredRef) :
    acc.wants ⊆ (f.whStep db acc r).wants := by
  unfold Fetch.whStep
  cases hw : f.wantOf r with
  | none =>
    cases hv : db (remote_tracking r.remote_id r.inner.name) <;>
      simp [hw, hv, List.Subset.refl]
  | some w =>
    cases hv : db (remote_tracking r.remote_id r.inner.name) with
    | none =>
      simp [hw, hv]
      exact fun a ha => List.mem_insert_of_mem ha
    | some h =>
      by_cases hwh : w = h <;> simp [hw, hv, hwh]
      exact fun a ha => List.mem_insert_of_mem ha

theorem whStep_tip (f : Fetch) (db : List Char → Option Oid)
    (acc : WantsHaves) (r : FilteredRef)
    (hacc : ∀ s ∈ acc.wanted, s.inner.tip ∈ acc.wants) :
    ∀ s ∈ (f.whStep db acc r).wanted, s.inner.tip ∈ (f.whStep db acc r).wants := by
  intro s hs
  unfold Fetch.whStep at hs ⊢
  cases hw : f.wantOf r with
  | none =>
    cases hv : db (remote_tracking r.remote_id r.inner.name) <;>
      (simp [hw, hv] at hs ⊢; exact hacc s hs)
  | some w =>
    cases hv : db (remote_tracking r.remote_id r.inner.name) with
    | none =>
      simp [hw, hv, List.mem_insert_iff] at hs ⊢
      rcases hs with rfl | hs
      · exact Or.inl rfl
      · exact Or.inr (hacc s hs)
    | some h =>
      by_cases hwh : w = h <;>
        simp [hw, hv, hwh, List.mem_insert_iff] at hs ⊢
      · exact hacc s hs
      · rcases hs with rfl | hs
        · exact Or.inl rfl
        · exact Or.inr (hacc s hs)

theorem foldl_whStep_wanted (f : Fetch) (db : List Char → Option Oid)
    (refs : List FilteredRef) (acc : WantsHaves) (s : FilteredRef) :
    s ∈ (refs.foldl (f.whStep db) acc).wanted ↔
      s ∈ acc.wanted ∨ (s ∈ refs ∧ f.keeps db s = true) := by
  induction refs generalizing acc with
  | nil => simp
  | cons r rest ih =>
    simp only [List.foldl_cons, ih, whStep_wanted, List.mem_cons]
    constructor
    · rintro ((h | ⟨rfl, hk⟩) | ⟨hm, hk⟩)
      · exact Or.inl h
      · exact Or.inr ⟨Or.inl rfl, hk⟩
      · exact Or.inr ⟨Or.inr hm, hk⟩
    · rintro (h | ⟨rfl | hm, hk⟩)
      · exact Or.inl (Or.inl h)
      · exact Or.inl (Or.inr ⟨rfl, hk⟩)
      · exact Or.inr ⟨hm, hk⟩

theorem foldl_whStep_tip (f : Fetch) (db : List Char → Option Oid)
    (refs : List FilteredRef) (acc : WantsHaves)
    (hacc : ∀ s ∈ acc.wanted, s.inner.tip ∈ acc.wants) :
    ∀ s ∈ (refs.foldl (f.whStep db) acc).wanted,
      s.inner.tip ∈ (refs.foldl (f.whStep db) acc).wants := by
  induction refs generalizing acc with
  | nil => exact hacc
  | cons r rest ih =>
    simp only [List.foldl_cons]
    exact ih _ (whStep_tip f db acc r hacc)

/-- Claim C4: for every filtered ref, `Fetch::wants_haves` computes the
want as the signed manifest entry at the owned refname, falling back to
the advertised tip when the peer is tracked; a ref is kept in `wanted`
iff its want is `Some` (otherwise it is unsolicited) and differs from the
current value of its remote-tracking ref, and every kept ref contributes
its advertised tip to `wants`. -/
theorem c4_fetch_wants_haves (f : Fetch) (db : List Char → Option Oid)
    (refs : List FilteredRef) (r : FilteredRef) :
    (f.wantOf r = (f.signed r.remote_id (owned r.inner.name)).orElse
        (fun _ => if f.is_tracked r.remote_id then some r.inner.tip else none)) ∧
      (r ∈ (f.wants_haves db refs).wanted ↔
        r ∈ refs ∧ (f.wantOf r).isSome = true ∧
          f.wantOf r ≠ db (remote_tracking r.remote_id r.inner.name)) ∧
      (r ∈ (f.wants_haves db refs).wanted →
        r.inner.tip ∈ (f.wants_haves db refs).wants) := by
  refine ⟨rfl, ?_, ?_⟩
  · rw [Fetch.wants_haves, foldl_whStep_wanted]
    simp [Fetch.keeps, bne_iff_ne, and_assoc]
  · intro h
    exact foldl_whStep_tip f db refs ⟨[], [], []⟩ (by simp) r h

/-- Witness for C4 at a concrete tracked peer with an empty refdb: the
advertised ref is kept and its tip wanted. -/
theorem c4_witness :
    c4Ref ∈ (c4Fetch.wants_haves c4Db [c4Ref]).wanted ∧
      (7 : Oid) ∈ (c4Fetch.wants_haves c4Db [c4Ref]).wants := by
  have h := c4_fetch_wants_haves c4Fetch c4Db [c4Ref] c4Ref
  have hw : c4Ref ∈ (c4Fetch.wants_haves c4Db [c4Ref]).wanted :=
    h.2.1.mpr ⟨by decide, by decide, by decide⟩
  exact ⟨hw, h.2.2 hw⟩

theorem addGroup_noNoop (acc : List (PeerId × List Update)) (p : PeerId)
    (u : Update) (hacc : ∀ q g, (q, g) ∈ acc → ∀ x ∈ g, x.isNoop = false)
    (hu : u.isNoop = false) :
    ∀ q g, (q, g) ∈ addGroup acc p u → ∀ x ∈ g, x.isNoop = false := by
  induction acc with
  | nil =>
    intro q g hm x hx
    simp only [addGroup, List.mem_singleton, Prod.mk.injEq] at hm
    obtain ⟨rfl, rfl⟩ := hm
    simp only [List.mem_singleton] at hx
    subst hx
    exact hu
  | cons hd rest ih =>
    obtain ⟨q0, us0⟩ := hd
    intro q g hm x hx
    by_cases hq : q0 = p
    · simp only [addGroup, if_pos hq, List.mem_cons, Prod.mk.injEq] at hm
      rcases hm with ⟨rfl, rfl⟩ | hm
      · rcases List.mem_append.mp hx with hx | hx
        · exact hacc q us0 (List.mem_cons_self _ _) x hx
        · simp only [List.mem_singleton] at hx
          subst hx
          exact hu
      · exact hacc q g (List.mem_cons_of_mem _ hm) x hx
    · simp only [addGroup, if_neg hq, List.mem_cons, Prod.mk.injEq] at hm
      rcases hm with ⟨rfl, rfl⟩ | hm
      · exact hacc q g (List.mem_cons_self _ _) x hx
      · exact ih (fun q2 g2 hm2 => hacc q2 g2 (List.mem_cons_of_mem _ hm2)) q g hm x hx

theorem grouped_noNoop (refs : List FilteredRef)
    (acc : List (PeerId × List Update))
    (hacc : ∀ q g, (q, g) ∈ acc → ∀ x ∈ g, x.isNoop = false) :
    ∀ q g,
      (q, g) ∈ refs.foldl
        (fun acc r =>
          addGroup acc r.remote_id
            (.direct (remote_tracking r.remote_id r.inner.name) r.inner.tip
              .allow))
        acc →
      ∀ x ∈ g, x.isNoop = false := by
  induction refs generalizing acc with
  | nil => exact hacc
  | cons r rest ih =>
    simp only [List.foldl_cons]
    exact ih _ (addGroup_noNoop acc r.remote_id _ hacc (by simp [Update.isNoop]))

theorem attachNoops_spec (f : Fetch) (gs out : List (PeerId × List Update))
    (hgs : ∀ q g, (q, g) ∈ gs → ∀ x ∈ g, x.isNoop = false)
    (h : f.attachNoops gs = some out) :
    ∀ p g, (p, g) ∈ out →
      (∀ s, f.signed_refs.refs.lookup p = some s →
          g.filter Update.isNoop = [.noop (remote_tracking p Signed) s.atOid]) ∧
        (f.signed_refs.refs.lookup p = none → g.filter Update.isNoop = []) := by
  induction gs generalizing out with
  | nil =>
    simp only [Fetch.attachNoops, Option.some.injEq] at h
    subst h
    intro p g hm
    exact absurd hm (List.not_mem_nil _)
  | cons hd rest ih =>
    obtain ⟨q, us⟩ := hd
    have hus : ∀ x ∈ us, x.isNoop = false := hgs q us (List.mem_cons_self _ _)
    have hrest2 : ∀ q2 g2, (q2, g2) ∈ rest → ∀ x ∈ g2, x.isNoop = false :=
      fun q2 g2 hm2 => hgs q2 g2 (List.mem_cons_of_mem _ hm2)
    have hfil : us.filter Update.isNoop = [] :=
      List.filter_eq_nil_iff.mpr (fun x hx => by simp [hus x hx])
    simp only [Fetch.attachNoops] at h
    cases hq : f.signed_refs.refs.lookup q with
    | some s =>
      simp only [hq] at h
      cases hrest : f.attachNoops rest with
      | none => simp [hrest] at h
      | some outTl =>
        simp only [hrest, Option.map_some', Option.some.injEq] at h
        subst h
        intro p g hm
        simp only [List.mem_cons, Prod.mk.injEq] at hm
        rcases hm with ⟨rfl, rfl⟩ | hm
        · constructor
          · intro s2 hs2
            rw [hq] at hs2
            simp only [Option.some.injEq] at hs2
            subst hs2
            simp [List.filter_append, hfil, Update.isNoop]
          · intro hn
            rw [hq] at hn
            exact absurd hn (by simp)
        · exact ih outTl hrest2 hrest p g hm
    | none =>
      simp only [hq] at h
      by_cases ht : f.signed_refs.remotes.contains q
      · rw [if_pos ht] at h
        cases hrest : f.attachNoops rest with
        | none => simp [hrest] at h
        | some outTl =>
          simp only [hrest, Option.map_some', Option.some.injEq] at h
          subst h
          intro p g hm
          simp only [List.mem_cons, Prod.mk.injEq] at hm
          rcases hm with ⟨rfl, rfl⟩ | hm
          · exact ⟨fun s2 hs2 => absurd hs2 (by simp [hq]), fun _ => hfil⟩
          · exact ih outTl hrest2 hrest p g hm
      · rw [if_neg ht] at h
        exact absurd h (by simp)

/-- Claim C2: whenever `Fetch::prepare` succeeds, the transaction group of
every peer that has a manifest in the combined sigrefs selection contains
exactly one `Noop`, named `remote_tracking(peer, rad/signed_refs)` with
the manifest's `at` oid as expected pre-image; the group of a peer without
a manifest (hence tracked) contains no `Noop`. -/
theorem c2_fetch_prepare_noop (f : Fetch) (refs : List FilteredRef)
    (out : List (PeerId × List Update))
    (h : f.prepare_grouped refs = some out) :
    ∀ p g, (p, g) ∈ out →
      (∀ s, f.signed_refs.refs.lookup p = some s →
          g.filter Update.isNoop = [.noop (remote_tracking p Signed) s.atOid]) ∧
        (f.signed_refs.refs.lookup p = none → g.filter Update.isNoop = []) := by
  unfold Fetch.prepare_grouped at h
  exact attachNoops_spec f _ out (grouped_noNoop refs [] (by simp)) h

/-- Witness for C2: on the concrete input, peer 1's group carries exactly
the sigrefs `Noop` at blob 99 and tracked peer 2's group carries none. -/
theorem c2_witness :
    c2Group1.filter Update.isNoop = [.noop (remote_tracking 1 Signed) 99] ∧
      c2Group2.filter Update.isNoop = [] := by
  have h := c2_fetch_prepare_noop c2Fetch c2Refs c2Out (by decide)
  exact ⟨(h 1 c2Group1 (by decide)).1 ⟨[("refs/heads/main".toList, 10)], 99, []⟩
      (by decide),
    (h 2 c2Group2 (by decide)).2 (by decide)⟩

/-- Claim C1 (code bug): `Fetch::ref_filter` does not drop a ref whose
attributed remote peer equals `local_id` — when the local peer appears in
the combined `remotes` (reachable, since `Combined` flattens other peers'
transitive remotes), an advertised ref under the local peer's own
remote-tracking prefix passes the filter, and `Fetch::prepare` then emits
a `Direct` update on the local peer's own remote-tracking branch,
contradicting the source's own `debug_assert!("never touch our own")`. -/
theorem c1_fetch_ref_filter_self :
    Fetch.ref_filter fetchSelfTracked advSelfRef = some ⟨0, advSelfRef⟩ ∧
      fetchSelfTracked.local_id = 0 ∧
      Fetch.prepare fetchSelfTracked [⟨0, advSelfRef⟩] =
        some [[.direct ("refs/remotes/z/heads/main".toList) 42 .allow]] := by
  refine ⟨by decide, by decide, by decide⟩


theorem guard_required_eval (req wanted : List (List Char)) (hw : wanted ≠ []) :
    guard_required req wanted =
      (if (req.filter (fun r => !wanted.contains r)).isEmpty then .ok ()
       else
         .error (.missingRequiredRefs
           (req.filter (fun r => !wanted.contains r)))) := by
  simp [guard_required, List.isEmpty_iff, hw]

theorem guard_required_spec (req wanted : List (List Char)) :
    (wanted = [] → guard_required req wanted = .ok ()) ∧
      (guard_required req wanted = .ok () ↔
        wanted = [] ∨ ∀ n ∈ req, n ∈ wanted) ∧
      (∀ l, guard_required req wanted = .error (.missingRequiredRefs l) →
        ∀ n, n ∈ l ↔ n ∈ req ∧ n ∉ wanted) := by
  by_cases hw : wanted = []
  · subst hw
    refine ⟨fun _ => by simp [guard_required], by simp [guard_required], ?_⟩
    intro l hl
    simp [guard_required] at hl
  · have he := guard_required_eval req wanted hw
    have hfil : ∀ n, n ∈ req.filter (fun r => !wanted.contains r) ↔
        n ∈ req ∧ n ∉ wanted := by
      intro n
      simp [List.mem_filter, List.contains, List.elem_iff]
    refine ⟨fun h => absurd h hw, ?_, ?_⟩
    · rw [he]
      by_cases hd : (req.filter (fun r => !wanted.contains r)).isEmpty = true
      · rw [if_pos hd]
        rw [List.isEmpty_iff] at hd
        constructor
        · intro _
          right
          intro n hn
          by_contra hmem
          have hmm : n ∈ req.filter (fun r => !wanted.contains r) :=
            (hfil n).mpr ⟨hn, hmem⟩
          rw [hd] at hmm
          exact absurd hmm (List.not_mem_nil n)
        · intro _
          rfl
      · rw [if_neg hd]
        rw [Bool.not_eq_true, List.isEmpty_eq_false_iff_exists_mem] at hd
        obtain ⟨x, hx⟩ := hd
        constructor
        · intro h
          exact absurd h (by simp)
        · intro h
          rcases h with h | h
          · exact absurd h hw
          · obtain ⟨hx1, hx2⟩ := (hfil x).mp hx
            exact absurd (h x hx1) hx2
    · intro l hl n
      rw [he] at hl
      by_cases hd : (req.filter (fun r => !wanted.contains r)).isEmpty
      · rw [if_pos hd] at hl
        exact absurd hl (by simp)
      · rw [if_neg hd] at hl
        simp only [Except.error.injEq, LayoutErr.missingRequiredRefs.injEq] at hl
        subst hl
        exact hfil n

/-- Claim C8: a peek phase's `pre_validate` returns `Ok` on an empty
wanted set; on a non-empty set it returns `Ok` iff every required scoped
ref (`rad/id` and `rad/signed_refs` for each non-local delegate resp. the
cloned-from peer) is present, and otherwise errors with
`MissingRequiredRefs` listing exactly the absent required refs. -/
theorem c8_peek_pre_validate (s : ForFetch) (c : ForClone)
    (refs rc : List FilteredRef) :
    (s.requiredRefs = (s.delegates.filter (· ≠ s.local_id)).flatMap
        (fun d => [scopedOf d s.remote_id RadId, scopedOf d s.remote_id Signed])) ∧
      (refs = [] → s.pre_validate refs = .ok ()) ∧
      (s.pre_validate refs = .ok () ↔
        refs = [] ∨
          ∀ n ∈ s.requiredRefs, n ∈ refs.map (·.as_scoped s.remote_id)) ∧
      (∀ l, s.pre_validate refs = .error (.missingRequiredRefs l) →
        ∀ n, n ∈ l ↔
          n ∈ s.requiredRefs ∧ n ∉ refs.map (·.as_scoped s.remote_id)) ∧
      (rc = [] → c.pre_validate rc = .ok ()) ∧
      (c.pre_validate rc = .ok () ↔
        rc = [] ∨ ∀ n ∈ c.requiredRefs, n ∈ rc.map (·.as_scoped c.remote_id)) ∧
      (∀ l, c.pre_validate rc = .error (.missingRequiredRefs l) →
        ∀ n, n ∈ l ↔
          n ∈ c.requiredRefs ∧ n ∉ rc.map (·.as_scoped c.remote_id)) := by
  have hf := guard_required_spec s.requiredRefs (refs.map (·.as_scoped s.remote_id))
  have hc := guard_required_spec c.requiredRefs (rc.map (·.as_scoped c.remote_id))
  refine ⟨rfl, ?_, ?_, ?_, ?_, ?_, ?_⟩
  · intro h
    exact hf.1 (by simp [h])
  · unfold ForFetch.pre_validate
    rw [hf.2.1]
    simp
  · exact hf.2.2
  · intro h
    exact hc.1 (by simp [h])
  · unfold ForClone.pre_validate
    rw [hc.2.1]
    simp
  · exact hc.2.2

/-- Witness for C8: the `ForFetch` spec with sole non-local delegate 1
accepts a peek response holding the delegate's `rad/id` and
`rad/signed_refs`, and accepts the empty response. -/
theorem c8_witness :
    c8Spec.pre_validate c8Refs = .ok () ∧ c8Spec.pre_validate [] = .ok () := by
  have h1 := c8_peek_pre_validate c8Spec ⟨1⟩ c8Refs []
  have h2 := c8_peek_pre_validate c8Spec ⟨1⟩ [] []
  exact ⟨h1.2.2.1.mpr (Or.inr (by decide)), h2.2.1 rfl⟩

theorem run_fetch_tips (net : NetOracle) (odb : List Oid)
    (db : List Char → Option Oid) (prefixes : List (List Char)) (neg : NegT)
    (refs : List FilteredRef) (odb2 : List Oid) (df : Bool)
    (h : run_fetch net odb db prefixes neg = .ok (refs, odb2, df)) :
    ∀ r ∈ refs, odb2.contains r.inner.tip = true := by
  intro r hr
  simp only [run_fetch] at h
  split at h
  · simp only [Except.ok.injEq, Prod.mk.injEq] at h
    obtain ⟨h1, _⟩ := h
    subst h1
    exact absurd hr (List.not_mem_nil r)
  · split at h
    · rename_i hall
      simp only [Except.ok.injEq, Prod.mk.injEq] at h
      obtain ⟨h1, h2, _⟩ := h
      subst h1
      subst h2
      rw [List.all_eq_true] at hall
      exact hall r hr
    · exact absurd h (by simp)

theorem run_fetch_noWants (net : NetOracle) (odb : List Oid)
    (db : List Char → Option Oid) (prefixes : List (List Char)) (neg : NegT)
    (hw : remainingWants net db prefixes neg = []) :
    run_fetch net odb db prefixes neg = .ok ([], odb, false) := by
  simp only [remainingWants] at hw
  simp only [run_fetch]
  rw [hw]
  simp

/-- Claim C5: every ref returned by `Net::run_fetch` has its tip contained
in the (post-pack-adoption) object database — a missing tip makes the run
fail with an error and return no refs — and when nothing remains to want
after subtracting the haves, no fetch exchange is performed and the
returned ref list is empty. -/
theorem c5_run_fetch (net : NetOracle) (odb : List Oid)
    (db : List Char → Option Oid) (prefixes : List (List Char)) (neg : NegT)
    (refs : List FilteredRef) (odb2 : List Oid) (df : Bool) :
    (run_fetch net odb db prefixes neg = .ok (refs, odb2, df) →
      ∀ r ∈ refs, odb2.contains r.inner.tip = true) ∧
      (remainingWants net db prefixes neg = [] →
        run_fetch net odb db prefixes neg = .ok ([], odb, false)) := by
  constructor
  · exact run_fetch_tips net odb db prefixes neg refs odb2 df
  · exact run_fetch_noWants net odb db prefixes neg

/-- Witness for C5: with the single advertised tip already held for its
remote-tracking ref, nothing remains to want: no fetch, no refs. -/
theorem c5_witness :
    run_fetch c5Net [] c5Db [] c5Neg = .ok ([], [], false) :=
  (c5_run_fetch c5Net [] c5Db [] c5Neg [] [] false).2 (by decide)


/-- Claim C6: `pull` invoked with the local peer id fails immediately with
the self-replication sentinel, for every world — in particular before any
refdb reload, identity lookup or network exchange (the trace is empty and
the result does not depend on any other component of the world). -/
theorem c6_pull_self_guard (w : World) (whoami : Option Oid) :
    pull w w.local_id whoami = (.error .selfReplication, []) := by
  simp [pull]

theorem exec_trace (w : World) (sp : SpecKind) :
    (exec w sp).2 = [Ev.reload, Ev.lsRefs] ∨
      (exec w sp).2 = [Ev.reload, Ev.lsRefs, Ev.fetchEx] := by
  unfold exec
  cases hrf : run_fetch w.net w.odb (refname_to_id w.refdb) sp.prefixes
      sp.negOf with
  | error e => right; rfl
  | ok x =>
    obtain ⟨refs, odb2, df⟩ := x
    cases hpv : sp.preValidateOf refs with
    | error e => cases df <;> simp [hpv]
    | ok u =>
      cases u
      cases hpr : sp.prepareOf w refs with
      | error e => cases df <;> simp [hpv, hpr]
      | ok groups =>
        cases hag : applyGroups w.anc w.refdb groups with
        | error e => cases df <;> simp [hpv, hpr, hag]
        | ok r =>
          obtain ⟨st2, ap⟩ := r
          cases df <;> simp [hpv, hpr, hag]

theorem clone_trace_head (w : World) (remote_id : PeerId)
    (whoami : Option Oid) :
    (clone w remote_id whoami).2.take 2 = [Ev.reload, Ev.lsRefs] := by
  have h := exec_trace w (.forClone ⟨remote_id⟩)
  unfold clone
  rcases hex : exec w (.forClone ⟨remote_id⟩) with ⟨res, evs⟩
  rw [hex] at h
  simp only at h
  have htake : ∀ l : List Ev, (evs ++ l).take 2 = [Ev.reload, Ev.lsRefs] := by
    rcases h with rfl | rfl <;> intro l <;> rfl
  have htake0 : evs.take 2 = [Ev.reload, Ev.lsRefs] := by
    rcases h with rfl | rfl <;> rfl
  cases res with
  | error e => simpa using htake0
  | ok x =>
    obtain ⟨out, w1⟩ := x
    simp only
    cases hf : out.refs.find? (fun r =>
        r.remote_id == remote_id &&
          ("rad/id".toList).isSuffixOf r.inner.name) with
    | none =>
      simp only [hf]
      simpa using htake0
    | some idRef =>
      simp only [hf]
      cases hvf : w1.verifyAt idRef.inner.tip with
      | none =>
        simp only [hvf]
        simpa using htake0
      | some id =>
        simp only [hvf]
        rcases hip : internal_pull w1 id remote_id whoami with ⟨res2, evs2⟩
        cases res2 with
        | error e => simp [hip, htake]
        | ok x =>
          obtain ⟨s, w2⟩ := x
          simp [hip, htake]

/-- Claim C7: the top-level `clone` performs no self-replication guard:
invoked with the local peer id it still opens the `ls-refs` exchange
(trace starts with reload and ls-refs for every world, while `pull` at the
same arguments stops with the sentinel and an empty trace), and on the
concrete world `c7World` it proceeds through the `ForClone` peek
(performing the fetch exchange) into `internal::pull` and succeeds (in
particular it does not return the sentinel). -/
theorem c7_clone_no_self_guard (w : World) (whoami : Option Oid) :
    (clone w w.local_id whoami).2.take 2 = [Ev.reload, Ev.lsRefs] ∧
      pull w w.local_id whoami = (.error .selfReplication, []) ∧
      Ev.internalPull ∈ (clone c7World c7World.local_id none).2 ∧
      Ev.fetchEx ∈ (clone c7World c7World.local_id none).2 ∧
      (clone c7World c7World.local_id none).1.isOk = true := by
  refine ⟨clone_trace_head w w.local_id whoami, by simp [pull], ?_, ?_, ?_⟩
  · decide
  · decide
  · decide


theorem resolveRef_succ (st : RefdbSt) (fuel : Nat) (n : List Char) :
    resolveRef st (fuel + 1) n =
      (match st.lookup n with
       | some (.direct o) => some o
       | some (.sym t) => resolveRef st fuel t
       | none => none) := rfl

theorem lookup_setRef_self (st : RefdbSt) (n : List Char) (v : RefVal) :
    (setRef st n v).lookup n = some v := by
  simp [setRef, List.lookup]

theorem refname_to_id_setRef_direct (st : RefdbSt) (n : List Char) (t : Oid) :
    refname_to_id (setRef st n (.direct t)) n = some t := by
  rw [refname_to_id, show (10 : Nat) = 9 + 1 from rfl, resolveRef_succ,
    lookup_setRef_self]

theorem idsCurrentE_err (w : World) (e : Err) (h : idsCurrentE w = .error e) :
    e = .verification := by
  unfold idsCurrentE at h
  cases h1 : refname_to_id w.refdb RadId with
  | none =>
    simp only [h1] at h
    exact Except.noConfusion h
  | some o =>
    simp only [h1] at h
    cases h2 : w.verifyAt o with
    | none =>
      simp only [h2, Except.error.injEq] at h
      exact h.symm
    | some vi =>
      simp only [h2] at h
      exact Except.noConfusion h

theorem applyStep_fail (anc : Oid → Oid → Bool) (st : RefdbSt) (u : Update)
    (e : Err) (h : applyStep anc st u = .fail e) : ∃ n, e = .txAbort n := by
  cases u with
  | direct n t pol =>
    simp only [applyStep] at h
    split at h
    · simp at h
    · split at h
      · simp at h
      · split at h
        · simp at h
        · cases pol with
          | allow => simp at h
          | reject => simp at h
          | abort =>
            simp only [StepRes.fail.injEq] at h
            exact ⟨n, h.symm⟩
  | symbolic n tgt tc =>
    simp only [applyStep] at h
    split at h
    · split at h <;> simp at h
    · cases tc with
      | allow => simp at h
      | reject => simp at h
      | abort =>
        simp only [StepRes.fail.injEq] at h
        exact ⟨n, h.symm⟩
    · simp at h
  | noop n e2 =>
    simp only [applyStep] at h
    split at h
    · split at h <;> simp at h
    · simp at h

theorem applyStep_cont (anc : Oid → Oid → Bool) (st : RefdbSt) (u : Update)
    (h : u.noAbortNoNoop) :
    ∃ st2 upd rej, applyStep anc st u = .cont st2 upd rej := by
  cases hstep : applyStep anc st u with
  | cont st2 upd rej => exact ⟨st2, upd, rej, rfl⟩
  | groupAbort =>
    exfalso
    cases u with
    | direct n t pol =>
      simp only [applyStep] at hstep
      split at hstep
      · simp at hstep
      · split at hstep
        · simp at hstep
        · split at hstep
          · simp at hstep
          · cases pol <;> simp_all [Update.noAbortNoNoop]
    | symbolic n tgt tc =>
      simp only [applyStep] at hstep
      split at hstep
      · split at hstep <;> simp at hstep
      · cases tc <;> simp_all [Update.noAbortNoNoop]
      · simp at hstep
    | noop n e2 => exact h
  | fail e =>
    exfalso
    obtain ⟨n, rfl⟩ := applyStep_fail anc st u e hstep
    cases u with
    | direct n2 t pol =>
      simp only [applyStep] at hstep
      split at hstep
      · simp at hstep
      · split at hstep
        · simp at hstep
        · split at hstep
          · simp at hstep
          · cases pol <;> simp_all [Update.noAbortNoNoop]
    | symbolic n2 tgt tc =>
      simp only [applyStep] at hstep
      split at hstep
      · split at hstep <;> simp at hstep
      · cases tc <;> simp_all [Update.noAbortNoNoop]
      · simp at hstep
    | noop n2 e2 => exact h

theorem applyTxGo_err (anc : Oid → Oid → Bool) (orig : RefdbSt)
    (grp : List Update) (l : List Update) (st : RefdbSt) (acc : Applied)
    (e : Err) (h : applyTxGo anc orig grp st l acc = .error e) :
    ∃ n, e = .txAbort n := by
  induction l generalizing st acc with
  | nil => simp [applyTxGo] at h
  | cons u rest ih =>
    simp only [applyTxGo] at h
    cases hstep : applyStep anc st u with
    | cont st2 upd rej => rw [hstep] at h; exact ih _ _ h
    | groupAbort => rw [hstep] at h; simp at h
    | fail e2 =>
      rw [hstep] at h
      simp only [Except.error.injEq] at h
      subst h
      exact applyStep_fail anc st u e2 hstep

theorem setupRadGo_err (w : World) (urns : List UrnT) (acc : List Update)
    (e : Err) (h : setupRadGo w urns acc = .error e) : ∃ u, e = .verifyUrn u := by
  induction urns generalizing w acc with
  | nil => simp [setupRadGo] at h
  | cons urn rest ih =>
    simp only [setupRadGo] at h
    cases hv : w.verifyUrnAt urn with
    | none =>
      rw [hv] at h
      simp only [Except.error.injEq] at h
      exact ⟨urn, h.symm⟩
    | some d => rw [hv] at h; exact ih _ _ h

theorem setupRadGo_ok_shape (w : World) (urns : List UrnT) (acc : List Update)
    (w2 : World) (up : List Update) (h : setupRadGo w urns acc = .ok (w2, up)) :
    ∃ tail, up = acc ++ tail ∧
      ∀ u ∈ tail, ∃ n tgt, u = Update.symbolic n tgt .allow := by
  induction urns generalizing w acc with
  | nil =>
    simp only [setupRadGo, Except.ok.injEq, Prod.mk.injEq] at h
    obtain ⟨rfl, rfl⟩ := h
    exact ⟨[], by simp, by simp⟩
  | cons urn rest ih =>
    simp only [setupRadGo] at h
    cases hv : w.verifyUrnAt urn with
    | none => rw [hv] at h; simp at h
    | some d =>
      rw [hv] at h
      obtain ⟨tail, htail, hsym⟩ := ih _ _ h
      refine ⟨.symbolic (joinSep [REFS, RAD, IDS, urn])
          ⟨namespacedRadId urn, d.content_id⟩ .allow :: tail,
        by simp [htail], ?_⟩
      intro u hu
      rcases List.mem_cons.mp hu with rfl | hu
      · exact ⟨_, _, rfl⟩
      · exact hsym u hu

theorem applyTxGo_ok (anc : Oid → Oid → Bool) (orig : RefdbSt)
    (grp : List Update) (l : List Update) (st : RefdbSt) (acc : Applied)
    (h : ∀ u ∈ l, u.noAbortNoNoop) :
    ∃ st2 ap, applyTxGo anc orig grp st l acc = .ok (st2, ap) := by
  induction l generalizing st acc with
  | nil => exact ⟨st, acc, rfl⟩
  | cons u rest ih =>
    obtain ⟨st2, upd, rej, hstep⟩ := applyStep_cont anc st u (h u (by simp))
    simp only [applyTxGo, hstep]
    exact ih st2 ⟨acc.updated ++ upd.toList, acc.rejected ++ rej.toList⟩
      (fun v hv => h v (by simp [hv]))

theorem applyTxGo_append (anc : Oid → Oid → Bool) (orig : RefdbSt)
    (grp : List Update) (l1 l2 : List Update) (st : RefdbSt) (acc : Applied)
    (st1 : RefdbSt) (ap1 : Applied) (h : ∀ u ∈ l1, u.noAbortNoNoop)
    (h1 : applyTxGo anc orig grp st l1 acc = .ok (st1, ap1)) :
    applyTxGo anc orig grp st (l1 ++ l2) acc =
      applyTxGo anc orig grp st1 l2 ap1 := by
  induction l1 generalizing st acc with
  | nil =>
    simp only [applyTxGo, Except.ok.injEq, Prod.mk.injEq] at h1
    obtain ⟨rfl, rfl⟩ := h1
    simp
  | cons u rest ih =>
    obtain ⟨st2, upd, rej, hstep⟩ := applyStep_cont anc st u (h u (by simp))
    simp only [applyTxGo, hstep, List.cons_append] at h1 ⊢
    exact ih _ _ (fun v hv => h v (by simp [hv])) h1

theorem setupRadFinish_err (w2 : World) (newest : VerifiedIdentity)
    (whoami : Option Oid) (up0 : List Update) (e : Err)
    (h : setupRadFinish w2 newest whoami up0 = .error e) :
    ∃ n, e = .txAbort n := by
  simp only [setupRadFinish] at h
  split at h
  · rename_i e2 htx
    simp only [Except.error.injEq] at h
    subst h
    exact applyTxGo_err _ _ _ _ _ _ _ htx
  · simp at h

theorem setupRadFinish_ok (w2 : World) (newest : VerifiedIdentity)
    (whoami : Option Oid) (up0 : List Update) (ap : Applied) (wf : World)
    (hup0 : ∀ u ∈ up0, u.noAbortNoNoop)
    (h : setupRadFinish w2 newest whoami up0 = .ok (ap, wf)) :
    refname_to_id wf.refdb RadId = some newest.content_id ∨
      (refname_to_id wf.refdb RadId ≠ some newest.content_id ∧
        Update.direct RadId newest.content_id .reject ∈ ap.rejected) := by
  have hup1 : ∀ u ∈ (match whoami with
      | some tip => up0 ++ [Update.direct RadSelf tip .reject]
      | none => up0), u.noAbortNoNoop := by
    cases whoami with
    | none => exact hup0
    | some tip =>
      intro u hu
      rcases List.mem_append.mp hu with hu | hu
      · exact hup0 u hu
      · simp only [List.mem_singleton] at hu
        subst hu
        simp [Update.noAbortNoNoop]
  simp only [setupRadFinish] at h
  obtain ⟨st1, ap1, h1⟩ := applyTxGo_ok w2.anc w2.refdb _ _ w2.refdb ⟨[], []⟩ hup1
  rw [applyTx, applyTxGo_append w2.anc w2.refdb _ _ _ _ _ _ _ hup1 h1] at h
  cases hr : refname_to_id st1 RadId with
  | none =>
    have hstep : applyStep w2.anc st1
        (.direct RadId newest.content_id .reject) =
        .cont (setRef st1 RadId (.direct newest.content_id))
          (some (.direct RadId newest.content_id)) none := by
      simp [applyStep, hr]
    simp only [applyTxGo, hstep, Except.ok.injEq, Prod.mk.injEq] at h
    obtain ⟨rfl, rfl⟩ := h
    left
    exact refname_to_id_setRef_direct st1 RadId newest.content_id
  | some c =>
    by_cases hct : c = newest.content_id
    · have hstep : applyStep w2.anc st1
          (.direct RadId newest.content_id .reject) = .cont st1 none none := by
        simp [applyStep, hr, hct]
      simp only [applyTxGo, hstep, Except.ok.injEq, Prod.mk.injEq] at h
      obtain ⟨rfl, rfl⟩ := h
      left
      rw [hr, hct]
    · by_cases hanc : w2.anc c newest.content_id = true
      · have hstep : applyStep w2.anc st1
            (.direct RadId newest.content_id .reject) =
            .cont (setRef st1 RadId (.direct newest.content_id))
              (some (.direct RadId newest.content_id)) none := by
          simp [applyStep, hr, hct, hanc]
        simp only [applyTxGo, hstep, Except.ok.injEq, Prod.mk.injEq] at h
        obtain ⟨rfl, rfl⟩ := h
        left
        exact refname_to_id_setRef_direct st1 RadId newest.content_id
      · have hstep : applyStep w2.anc st1
            (.direct RadId newest.content_id .reject) =
            .cont st1 none
              (some (.direct RadId newest.content_id .reject)) := by
          simp [applyStep, hr, hct, hanc]
        simp only [applyTxGo, hstep, Except.ok.injEq, Prod.mk.injEq] at h
        obtain ⟨rfl, rfl⟩ := h
        right
        refine ⟨?_, by simp⟩
        rw [hr]
        simp [hct]

theorem setup_rad_ok_chosen (w : World) (theirs : VerifiedIdentity)
    (whoami : Option Oid) (ap : Applied) (wf : World)
    (h : setup_rad w theirs whoami = .ok (ap, wf)) :
    ∃ w2 up0, setupRadGo w (setupNewest w theirs).delegate_urns [] =
        .ok (w2, up0) ∧
      setupRadFinish w2 (setupNewest w theirs) whoami up0 = .ok (ap, wf) := by
  unfold setup_rad at h
  cases hcur : idsCurrentE w with
  | error e => rw [hcur] at h; exact absurd h (by simp)
  | ok cur =>
    rw [hcur] at h
    have hnst : setupNewest w theirs =
        (match cur with
         | some ours =>
           if w.local_id ∈ ours.delegate_ids ∧ ours.revision ≠ theirs.revision
           then w.newerFn ours theirs
           else theirs
         | none => theirs) := by
      cases cur <;> simp [setupNewest, hcur]
    cases cur with
    | none =>
      simp only at h hnst
      rw [hnst]
      cases hgo : setupRadGo w theirs.delegate_urns [] with
      | error e => rw [hgo] at h; exact absurd h (by simp)
      | ok r =>
        obtain ⟨w2, up0⟩ := r
        rw [hgo] at h
        exact ⟨w2, up0, rfl, h⟩
    | some ours =>
      simp only at h hnst
      by_cases hcond : w.local_id ∈ ours.delegate_ids ∧
          ours.revision ≠ theirs.revision
      · rw [if_pos hcond] at h hnst
        by_cases hconf : (w.newerFn ours theirs).content_id ≠ ours.content_id
        · rw [if_pos hconf] at h
          exact absurd h (by simp)
        · rw [if_neg hconf] at h
          simp only at h
          rw [hnst]
          cases hgo : setupRadGo w (w.newerFn ours theirs).delegate_urns [] with
          | error e => rw [hgo] at h; exact absurd h (by simp)
          | ok r =>
            obtain ⟨w2, up0⟩ := r
            rw [hgo] at h
            exact ⟨w2, up0, rfl, h⟩
      · rw [if_neg hcond] at h hnst
        simp only at h
        rw [hnst]
        cases hgo : setupRadGo w theirs.delegate_urns [] with
        | error e => rw [hgo] at h; exact absurd h (by simp)
        | ok r =>
          obtain ⟨w2, up0⟩ := r
          rw [hgo] at h
          exact ⟨w2, up0, rfl, h⟩

/-- Claim C3 (amended): after `setup_rad` runs inside `pull`, exactly one
of three outcomes holds — `rad/id` points at the chosen newest identity's
`content_id`; or `ConfirmationRequired` was returned (surfaced as
`requires_confirmation = true` by `pull`) and `rad/id` is not advanced to
the remote's newer identity; or the final `rad/id` update was rejected by
its `no_ff = Reject` policy (a non-fast-forward) and `rad/id` does not
point at the newest identity's `content_id` — the third outcome being the
one the claim misses. -/
theorem c3_setup_rad_trichotomy (w : World) (theirs : VerifiedIdentity)
    (whoami : Option Oid)
    (hnewer : ∀ a b, w.newerFn a b = a ∨ w.newerFn a b = b)
    (hv : ∀ o vi, w.verifyAt o = some vi → vi.content_id = o) :
    (setup_rad w theirs whoami = .error .confirmationRequired →
      refname_to_id w.refdb RadId ≠ some theirs.content_id) ∧
      (∀ ap w2, setup_rad w theirs whoami = .ok (ap, w2) →
        refname_to_id w2.refdb RadId =
            some (setupNewest w theirs).content_id ∨
          (refname_to_id w2.refdb RadId ≠
              some (setupNewest w theirs).content_id ∧
            Update.direct RadId (setupNewest w theirs).content_id .reject ∈
              ap.rejected)) := by
  constructor
  · intro h
    unfold setup_rad at h
    cases hcur : idsCurrentE w with
    | error e =>
      rw [hcur] at h
      simp only [Except.error.injEq] at h
      have he := idsCurrentE_err w e hcur
      rw [h] at he
      simp at he
    | ok cur =>
      rw [hcur] at h
      cases cur with
      | none =>
        simp only at h
        cases hgo : setupRadGo w theirs.delegate_urns [] with
        | error e =>
          rw [hgo] at h
          simp only [Except.error.injEq] at h
          obtain ⟨u, hu⟩ := setupRadGo_err w _ _ e hgo
          rw [h] at hu
          simp at hu
        | ok r =>
          obtain ⟨w2, up0⟩ := r
          rw [hgo] at h
          obtain ⟨n, hn⟩ := setupRadFinish_err w2 theirs whoami up0 _ h
          simp at hn
      | some ours =>
        by_cases hcond : w.local_id ∈ ours.delegate_ids ∧
            ours.revision ≠ theirs.revision
        · simp only at h
          rw [if_pos hcond] at h
          by_cases hconf : (w.newerFn ours theirs).content_id ≠ ours.content_id
          · -- the genuine ConfirmationRequired branch
            have hcur2 := hcur
            unfold idsCurrentE at hcur2
            cases h1 : refname_to_id w.refdb RadId with
            | none =>
              simp only [h1] at hcur2
              simp at hcur2
            | some o =>
              simp only [h1] at hcur2
              cases h2 : w.verifyAt o with
              | none =>
                simp only [h2] at hcur2
                exact Except.noConfusion hcur2
              | some vi =>
                simp only [h2, Except.ok.injEq, Option.some.injEq] at hcur2
                have hco : ours.content_id = o := by
                  rw [← hcur2]
                  exact hv o vi h2
                rcases hnewer ours theirs with hn | hn
                · rw [hn] at hconf
                  exact absurd rfl hconf
                · rw [hn] at hconf
                  intro hcontra
                  simp only [Option.some.injEq] at hcontra
                  exact hconf (by rw [← hcontra, hco])
          · rw [if_neg hconf] at h
            simp only at h
            cases hgo : setupRadGo w (w.newerFn ours theirs).delegate_urns []
                with
            | error e =>
              rw [hgo] at h
              simp only [Except.error.injEq] at h
              obtain ⟨u, hu⟩ := setupRadGo_err w _ _ e hgo
              rw [h] at hu
              simp at hu
            | ok r =>
              obtain ⟨w2, up0⟩ := r
              rw [hgo] at h
              obtain ⟨n, hn⟩ :=
                setupRadFinish_err w2 (w.newerFn ours theirs) whoami up0 _ h
              simp at hn
        · simp only at h
          rw [if_neg hcond] at h
          simp only at h
          cases hgo : setupRadGo w theirs.delegate_urns [] with
          | error e =>
            rw [hgo] at h
            simp only [Except.error.injEq] at h
            obtain ⟨u, hu⟩ := setupRadGo_err w _ _ e hgo
            rw [h] at hu
            simp at hu
          | ok r =>
            obtain ⟨w2, up0⟩ := r
            rw [hgo] at h
            obtain ⟨n, hn⟩ := setupRadFinish_err w2 theirs whoami up0 _ h
            simp at hn
  · intro ap w2 h
    obtain ⟨wg, up0, hgo, hfin⟩ := setup_rad_ok_chosen w theirs whoami ap w2 h
    obtain ⟨tail, htail, hsym⟩ := setupRadGo_ok_shape w _ [] wg up0 hgo
    have hup0 : ∀ u ∈ up0, u.noAbortNoNoop := by
      intro u hu
      rw [htail] at hu
      simp only [List.nil_append] at hu
      obtain ⟨n, tgt, rfl⟩ := hsym u hu
      simp [Update.noAbortNoNoop]
    exact setupRadFinish_ok wg _ whoami up0 ap w2 hup0 hfin


/-- Claim C3 counterexample: on a world whose local `rad/id` holds a
forked identity not delegating to the local peer, `setup_rad` succeeds (so
`pull` reports `requires_confirmation = false`), the `rad/id` update to
the newest identity (content 7) is rejected by the `no_ff = Reject`
policy, and `rad/id` still points at blob 9 — neither disjunct of the
claimed XOR holds. -/
theorem c3_counterexample :
    c3CheckB = true ∧ setupNewest c3W c3Theirs = c3Theirs ∧
      c3Theirs.content_id = 7 ∧ (9 : Oid) ≠ 7 := by
  refine ⟨by decide, by decide, rfl, by decide⟩

/-- Witness for the amended C3 at a world with no local `rad/id`: the
first disjunct (rad/id advanced to the newest identity) holds. -/
theorem c3_witness :
    refname_to_id c3GoodW2.refdb RadId =
        some (setupNewest c3GoodW c3Theirs).content_id ∨
      (refname_to_id c3GoodW2.refdb RadId ≠
          some (setupNewest c3GoodW c3Theirs).content_id ∧
        Update.direct RadId (setupNewest c3GoodW c3Theirs).content_id
            .reject ∈ c3GoodAp.rejected) :=
  (c3_setup_rad_trichotomy c3GoodW c3Theirs none (fun _ _ => Or.inl rfl)
      (fun o vi h => by simp [c3GoodW] at h)).2
    c3GoodAp c3GoodW2 rfl


theorem exec_forFetch_empty (w : World) (s : ForFetch)
    (hw : remainingWants w.net (refname_to_id w.refdb)
        (SpecKind.prefixes (.forFetch s)) (SpecKind.negOf (.forFetch s)) = []) :
    exec w (.forFetch s) = (.ok (⟨[], ⟨[], []⟩⟩, w), [Ev.reload, Ev.lsRefs]) := by
  unfold exec
  rw [run_fetch_noWants w.net w.odb (refname_to_id w.refdb) _ _ hw]
  simp only [SpecKind.preValidateOf, ForFetch.pre_validate, guard_required,
    List.map_nil, List.isEmpty_nil, if_true, SpecKind.prepareOf,
    prepareForFetchGo, applyGroups, applyTx, applyTxGo, Applied.append]
  rfl

theorem exec_fetchPhase_empty (w : World) (f : Fetch)
    (hw : remainingWants w.net (refname_to_id w.refdb)
        (SpecKind.prefixes (.fetchPhase f))
        (SpecKind.negOf (.fetchPhase f)) = []) :
    exec w (.fetchPhase f) =
      (.ok (⟨[], ⟨[], []⟩⟩, w), [Ev.reload, Ev.lsRefs]) := by
  unfold exec
  rw [run_fetch_noWants w.net w.odb (refname_to_id w.refdb) _ _ hw]
  simp only [SpecKind.preValidateOf, Fetch.pre_validate, SpecKind.prepareOf,
    Fetch.prepare, Fetch.prepare_grouped, List.foldl_nil, Fetch.attachNoops,
    Option.map_some', applyGroups, Applied.append]
  rfl

theorem pullFetchStage_converged (w : World) (ap0 : Applied) (rc : Bool)
    (delegates tracked : List PeerId) (remote_id : PeerId)
    (h0 : ap0.updated = [])
    (hfetch : ∀ comb, combinedSigrefs w delegates tracked 3 = .ok comb →
      remainingWants w.net (refname_to_id w.refdb)
        (SpecKind.prefixes (.fetchPhase ⟨w.local_id, remote_id, comb⟩))
        (SpecKind.negOf (.fetchPhase ⟨w.local_id, remote_id, comb⟩)) = [])
    (hsig : refname_to_id w.refdb Signed = some (w.computeOwnSigrefs w.refdb)) :
    ∀ s w2 evs,
      pullFetchStage w ap0 rc delegates tracked remote_id = (.ok (s, w2), evs) →
      s.applied.updated = [] := by
  intro s w2 evs hp
  unfold pullFetchStage at hp
  cases hcomb : combinedSigrefs w delegates tracked 3 with
  | error e => rw [hcomb] at hp; simp at hp
  | ok comb =>
    rw [hcomb] at hp
    simp only at hp
    rw [exec_fetchPhase_empty w ⟨w.local_id, remote_id, comb⟩
      (hfetch comb hcomb)] at hp
    simp only at hp
    rw [if_pos hsig] at hp
    rw [hcomb] at hp
    simp only [Prod.mk.injEq, Except.ok.injEq] at hp
    obtain ⟨⟨hs, _⟩, _⟩ := hp
    rw [← hs]
    simp [Applied.append, h0]

/-- Claim C10 (amended): from a converged local state — the peek and fetch
negotiations want nothing new, the identity setup transaction is a no-op
(or requires confirmation), and the recomputed local sigrefs blob is
unchanged so `SignedRefs::update` returns `None` — a `pull` against the
unchanged remote produces `Applied.updated = ∅`.  Without the convergence
premise a second run can produce new updates even though the remote is
unchanged, because the first run changes the local state negotiation feeds
on (see the counterexample, where run 1 fetches the delegate's sigrefs and
run 2's peek therefore tracks a new transitive remote). -/
theorem c10_pull_converged (w : World) (remote_id : PeerId)
    (whoami : Option Oid) (id : VerifiedIdentity)
    (hid : idsCurrentE w = .ok (some id))
    (hpeek : remainingWants w.net (refname_to_id w.refdb)
        (SpecKind.prefixes (.forFetch
          ⟨w.local_id, remote_id, id.delegate_ids, computeTracked w id⟩))
        (SpecKind.negOf (.forFetch
          ⟨w.local_id, remote_id, id.delegate_ids, computeTracked w id⟩)) = [])
    (hsetup : ∀ nst,
      idsNewest w (id.delegate_ids.filter (· ≠ w.local_id)) = some nst →
      setup_rad w nst whoami = .ok (⟨[], []⟩, w) ∨
        setup_rad w nst whoami = .error .confirmationRequired)
    (hfetch : ∀ comb,
      combinedSigrefs w id.delegate_ids (computeTracked w id) 3 = .ok comb →
      remainingWants w.net (refname_to_id w.refdb)
        (SpecKind.prefixes (.fetchPhase ⟨w.local_id, remote_id, comb⟩))
        (SpecKind.negOf (.fetchPhase ⟨w.local_id, remote_id, comb⟩)) = [])
    (hsig : refname_to_id w.refdb Signed = some (w.computeOwnSigrefs w.refdb)) :
    ∀ s w2 evs, pull w remote_id whoami = (.ok (s, w2), evs) →
      s.applied.updated = [] := by
  intro s w2 evs hp
  unfold pull at hp
  by_cases hlr : w.local_id = remote_id
  · rw [if_pos hlr] at hp
    simp at hp
  · rw [if_neg hlr, hid] at hp
    simp only at hp
    unfold internal_pull at hp
    simp only at hp
    rw [exec_forFetch_empty w
      ⟨w.local_id, remote_id, id.delegate_ids, computeTracked w id⟩ hpeek] at hp
    simp only at hp
    cases hnew : idsNewest w (id.delegate_ids.filter (· ≠ w.local_id)) with
    | none =>
      rw [hnew] at hp
      simp only [Prod.mk.injEq] at hp
      obtain ⟨hres, _⟩ := hp
      exact pullFetchStage_converged w ⟨[], []⟩ false id.delegate_ids
        (computeTracked w id) remote_id rfl hfetch hsig s w2 _
        (Prod.ext_iff.mpr ⟨hres, rfl⟩)
    | some nst =>
      rw [hnew] at hp
      simp only at hp
      rcases hsetup nst hnew with hok | herr
      · rw [hok] at hp
        simp only [Prod.mk.injEq] at hp
        obtain ⟨hres, _⟩ := hp
        exact pullFetchStage_converged w (Applied.append ⟨[], []⟩ ⟨[], []⟩)
          false id.delegate_ids (computeTracked w id) remote_id rfl hfetch
          hsig s w2 _ (Prod.ext_iff.mpr ⟨hres, rfl⟩)
      · rw [herr] at hp
        simp only [Prod.mk.injEq] at hp
        obtain ⟨hres, _⟩ := hp
        exact pullFetchStage_converged w ⟨[], []⟩ true id.delegate_ids
          (computeTracked w id) remote_id rfl hfetch hsig s w2 _
          (Prod.ext_iff.mpr ⟨hres, rfl⟩)

/-- Claim C10 counterexample: two successive pulls against an unchanged
remote (all transport and blob oracles are constant functions).  The first
run succeeds; the second run still applies two updates — the verification
refs of transitive remote `zaa`, which the first run's fetched sigrefs
taught the peek to track — so `Applied.updated ≠ ∅` on the second run. -/
theorem c10_counterexample :
    c10Run1.isOk = true ∧
      c10Run2Updated =
        some [.direct ("refs/remotes/zaa/rad/signed_refs".toList) 9,
              .direct ("refs/remotes/zaa/rad/id".toList) 10] := by
  constructor
  · decide
  · decide

/-- Witness for the amended C10 at the converged world: the pull succeeds
and applies nothing. -/
theorem c10_witness : c10ConvS.applied.updated = [] :=
  c10_pull_converged c10ConvW 1 none c10Id rfl (by decide)
    (by
      intro nst hn
      have h3 : idsNewest c10ConvW
          (c10Id.delegate_ids.filter (· ≠ c10ConvW.local_id)) =
          some c10Id := by decide
      rw [h3] at hn
      obtain rfl := (Option.some.inj hn).symm
      exact Or.inl rfl)
    (by
      intro comb hcomb
      have h4 : combinedSigrefs c10ConvW c10Id.delegate_ids
          (computeTracked c10ConvW c10Id) 3 =
          .ok ⟨[(1, ⟨[("refs/heads/main".toList, 7)], 6, []⟩)], []⟩ := by
        rfl
      rw [h4] at hcomb
      obtain rfl := (Except.ok.inj hcomb).symm
      decide)
    (by decide)
    c10ConvS c10ConvW2 c10ConvEvs rfl

end LinkRepl
